import Mathlib

/-!
Verification development for the Order-Parser policy-routing, calibration,
triage and signature modules.

The TypeScript sources are shallowly embedded: JS numbers are modelled as
rationals (ℚ), optional values as `Option`, fallible functions as `Except`,
and collaborator services as structures of functions. Nondeterministic
inputs of the code (clock timestamps) are passed as explicit parameters.
-/

namespace OrderParser

/-- Document types (src/types.ts `DocType`). -/
inductive DocType
  | PURCHASE_ORDER
  | CREDIT_MEMO
  | INVOICE
  | SALES_ORDER
  | PICKING_SHEET
  | EMAIL_COVER
  | UNKNOWN
deriving DecidableEq, Repr

/-- Automation lanes (src/types.ts `AutomationLane`). -/
inductive AutomationLane
  | AUTO
  | REVIEW
  | BLOCK
  | ASSIST
deriving DecidableEq, Repr

/-- Item classification (src/types.ts `ItemClass`). -/
inductive ItemClass
  | CATALOG
  | CONFIGURED
  | CUSTOM
  | UNKNOWN
deriving DecidableEq, Repr

/-- The mutable per-line row (src/types.ts `POLineRow`).  Presentation-only
fields that none of the routing or export logic reads (customer and address
strings, currency, audit version strings) are omitted; every field consumed
by `enrichAndValidate` or `buildPOExportsV1` is present. -/
structure POLineRow where
  doc_id : String
  doc_type : DocType
  line_no : Int
  customer_item_no : Option String := none
  customer_item_desc_raw : Option String := none
  qty : Option ℚ := none
  uom : Option String := none
  unit_price : Option ℚ := none
  extended_price : Option ℚ := none
  abh_item_no_candidate : Option String := none
  abh_item_no_final : Option String := none
  manufacturer : Option String := none
  finish : Option String := none
  category : Option String := none
  item_class : ItemClass := ItemClass.UNKNOWN
  edge_case_flags : List String := []
  raw_edge_case_notes : Option String := none
  confidence_score : Option ℚ := none
  automation_lane : AutomationLane
  routing_reason : Option String := none
  fields_requiring_review : Option (List String) := none
  policy_rule_ids_applied : Option (List String) := none
  match_score : Option ℚ := none
  sage_import_ready : Option Bool := none
deriving DecidableEq, Repr

/-- Manufacturer match returned by the reference-lookup collaborator;
`enrichAndValidate` reads only the abbreviation (`mfg.abbr`). -/
structure MfrMatch where
  abbr : String
deriving DecidableEq, Repr

/-- Interface of the reference-lookup collaborator
(services/referenceService.ts, consumed read-only by `enrichAndValidate`).
Its implementation is external to the routing logic, so grounding results
are universally quantified in the theorems below. -/
structure ReferenceService where
  normalizeManufacturer : String → Option MfrMatch
  normalizeFinish : String → Option String
  detectCategory : String → Option String

/-- JS template interpolation of a possibly-undefined string
(`${x}` renders `undefined` as the string "undefined"). -/
def jsShow : Option String → String
  | some s => s
  | none => "undefined"

/-- Helper for `jsSetDedup`, carrying the set of strings already seen. -/
def jsSetDedupGo (seen : List String) : List String → List String
  | [] => []
  | x :: xs => if x ∈ seen then jsSetDedupGo seen xs else x :: jsSetDedupGo (x :: seen) xs

/-- JS `Array.from(new Set(xs))`: first-occurrence-order deduplication. -/
def jsSetDedup (xs : List String) : List String := jsSetDedupGo [] xs

/-- The ref-pack note appended by `enrichAndValidate`:
previous notes, a " | " separator only when the previous notes are truthy
(neither absent nor empty), then `ref_pack_version=<version>`. -/
def refPackNote (prev : Option String) (referenceVersion : String) : String :=
  (prev.getD "") ++ (if prev.getD "" = "" then "" else " | ")
    ++ ("ref_pack_version=" ++ referenceVersion)

/-- The text blob `enrichAndValidate` grounds against the reference pack:
item number and raw description joined by a space, absent fields as "". -/
def groundingText (row : POLineRow) : String :=
  (row.customer_item_no.getD "") ++ " " ++ (row.customer_item_desc_raw.getD "")

/-- Violations pushed by the grounding pass of `enrichAndValidate`
(src/unnamed/part_007 lines 34-53): the manufacturer and finish checks each
push a named violation on failure; the category check pushes nothing. -/
def groundingViolations (refService : ReferenceService) (row : POLineRow) : List String :=
  (if (refService.normalizeManufacturer (groundingText row)).isSome then []
   else ["No Mfr Match"])
    ++ (if (refService.normalizeFinish (groundingText row)).isSome then []
        else ["No Finish Match"])

/-- Score accumulated by the grounding pass: 0.4 for a manufacturer match,
0.2 for a finish match, 0.2 for a category match. -/
def groundingScore (refService : ReferenceService) (row : POLineRow) : ℚ :=
  (if (refService.normalizeManufacturer (groundingText row)).isSome then (0.4 : ℚ) else 0)
    + (if (refService.normalizeFinish (groundingText row)).isSome then (0.2 : ℚ) else 0)
    + (if (refService.detectCategory (groundingText row)).isSome then (0.2 : ℚ) else 0)

/-- Per-row body of `enrichAndValidate` (src/unnamed/part_007).  The
EMAIL_COVER guard quarantines the row before any grounding happens; the
source's `priceExpected` local is dead code (only the doc-type hint string
depends on the document type) and is not reproduced. -/
def enrichRow (refService : ReferenceService) (referenceVersion : String)
    (row : POLineRow) : POLineRow :=
  if row.doc_type = DocType.EMAIL_COVER then
    { row with
      automation_lane := AutomationLane.BLOCK
      sage_import_ready := some false
      routing_reason := some "EMAIL_COVER should not generate exportable line items (quarantined)"
      fields_requiring_review := some ["doc_type"]
      raw_edge_case_notes := some (refPackNote row.raw_edge_case_notes referenceVersion)
      policy_rule_ids_applied := some (jsSetDedup ((row.policy_rule_ids_applied.getD [])
        ++ ["REFPACK:" ++ referenceVersion, "DOC_GUARD:EMAIL_COVER"])) }
  else
    let mfg := refService.normalizeManufacturer (groundingText row)
    let violations := groundingViolations refService row
    let score := groundingScore refService row
    let confidence : ℚ := min (score + 0.2) 1
    let isReady := violations.length = 0 ∧ (0.8 : ℚ) ≤ confidence
    let lane := if isReady then AutomationLane.AUTO
      else if 2 < violations.length then AutomationLane.BLOCK else AutomationLane.ASSIST
    let docHint := if row.doc_type = DocType.PICKING_SHEET then " (NO_PRICING_EXPECTED)" else ""
    { row with
      abh_item_no_candidate := match mfg with
        | some m => some (m.abbr ++ "-" ++ jsShow row.customer_item_no)
        | none => row.abh_item_no_candidate
      confidence_score := some confidence
      match_score := some confidence
      automation_lane := lane
      sage_import_ready := some (decide isReady)
      routing_reason := some (if isReady then "Grounded Match" ++ docHint
        else "Issues: " ++ String.intercalate ", " violations ++ docHint)
      fields_requiring_review := some (if isReady then [] else violations)
      raw_edge_case_notes := some (refPackNote row.raw_edge_case_notes referenceVersion)
      policy_rule_ids_applied := some (jsSetDedup ((row.policy_rule_ids_applied.getD [])
        ++ ["REFPACK:" ++ referenceVersion, "REF_GROUNDING_V4"])) }

/-- `enrichAndValidate` (src/unnamed/part_007): per-row map of `enrichRow`. -/
def enrichAndValidate (rows : List POLineRow) (refService : ReferenceService)
    (referenceVersion : String) : List POLineRow :=
  rows.map (enrichRow refService referenceVersion)

/-- C2: every row with doc_type EMAIL_COVER is returned by enrichAndValidate
with automation_lane BLOCK and sage_import_ready false, and the result does
not depend on the reference service at all (the guard fires before any
grounding scoring). -/
theorem emailCover_always_blocked (refService refService2 : ReferenceService)
    (referenceVersion : String) (rows : List POLineRow) (row : POLineRow)
    (hmem : row ∈ rows) (h : row.doc_type = DocType.EMAIL_COVER) :
    enrichRow refService referenceVersion row
        ∈ enrichAndValidate rows refService referenceVersion
      ∧ (enrichRow refService referenceVersion row).automation_lane = AutomationLane.BLOCK
      ∧ (enrichRow refService referenceVersion row).sage_import_ready = some false
      ∧ enrichRow refService referenceVersion row
          = enrichRow refService2 referenceVersion row := by
  refine ⟨List.mem_map_of_mem _ hmem, ?_, ?_, ?_⟩ <;> simp [enrichRow, h]

/-- Reference service with no matches at all, used as a concrete witness. -/
def refSvcNone : ReferenceService :=
  ⟨fun _ => none, fun _ => none, fun _ => none⟩

/-- Reference service matching everything, used as a concrete witness. -/
def refSvcAll : ReferenceService :=
  ⟨fun _ => some ⟨"HH"⟩, fun _ => some "US26D", fun _ => some "HINGE"⟩

/-- Concrete email-cover row used by the C2 witness. -/
def rowEmail : POLineRow :=
  { doc_id := "doc-1", doc_type := DocType.EMAIL_COVER, line_no := 1,
    confidence_score := some 0.99, automation_lane := AutomationLane.AUTO }

/-- Witness for C2 at a concrete email-cover row with maximal confidence. -/
theorem emailCover_always_blocked_witness :
    rowEmail ∈ [rowEmail] ∧ rowEmail.doc_type = DocType.EMAIL_COVER
      ∧ (enrichRow refSvcAll "v1" rowEmail ∈ enrichAndValidate [rowEmail] refSvcAll "v1"
          ∧ (enrichRow refSvcAll "v1" rowEmail).automation_lane = AutomationLane.BLOCK
          ∧ (enrichRow refSvcAll "v1" rowEmail).sage_import_ready = some false
          ∧ enrichRow refSvcAll "v1" rowEmail = enrichRow refSvcNone "v1" rowEmail) :=
  ⟨by simp, rfl, emailCover_always_blocked refSvcAll refSvcNone "v1" [rowEmail] rowEmail
    (by simp) rfl⟩

/-- C4: a non-EMAIL_COVER row is always routed AUTO or ASSIST and never
BLOCK: only the manufacturer and finish checks push violations, so the
violation list never exceeds two entries and the `violations.length > 2`
BLOCK branch is unreachable. -/
theorem nonEmail_never_blocked (refService : ReferenceService)
    (referenceVersion : String) (row : POLineRow)
    (h : row.doc_type ≠ DocType.EMAIL_COVER) :
    ((enrichRow refService referenceVersion row).automation_lane = AutomationLane.AUTO
        ∨ (enrichRow refService referenceVersion row).automation_lane = AutomationLane.ASSIST)
      ∧ (enrichRow refService referenceVersion row).automation_lane ≠ AutomationLane.BLOCK
      ∧ (groundingViolations refService row).length ≤ 2 := by
  rcases hm : refService.normalizeManufacturer (groundingText row) with _ | x <;>
    rcases hf : refService.normalizeFinish (groundingText row) with _ | y <;>
      rcases hc : refService.detectCategory (groundingText row) with _ | z <;>
        simp [enrichRow, h, groundingViolations, groundingScore, hm, hf, hc, min_def]
  all_goals norm_num
  all_goals simp

/-- Concrete purchase-order row used by the C3 and C4 witnesses. -/
def rowPO : POLineRow :=
  { doc_id := "doc-2", doc_type := DocType.PURCHASE_ORDER, line_no := 1,
    customer_item_no := some "4511", customer_item_desc_raw := some "HINGE 4.5 X 4.5 US26D",
    automation_lane := AutomationLane.REVIEW }

/-- Witness for C4 at a concrete purchase-order row with zero matches. -/
theorem nonEmail_never_blocked_witness :
    rowPO.doc_type ≠ DocType.EMAIL_COVER
      ∧ (((enrichRow refSvcNone "v1" rowPO).automation_lane = AutomationLane.AUTO
            ∨ (enrichRow refSvcNone "v1" rowPO).automation_lane = AutomationLane.ASSIST)
          ∧ (enrichRow refSvcNone "v1" rowPO).automation_lane ≠ AutomationLane.BLOCK
          ∧ (groundingViolations refSvcNone rowPO).length ≤ 2) :=
  ⟨by decide, nonEmail_never_blocked refSvcNone "v1" rowPO (by decide)⟩

/-- Reference service that matches manufacturer and finish but finds no
category, exhibiting the C3 counterexample. -/
def refSvcNoCat : ReferenceService :=
  ⟨fun _ => some ⟨"HH"⟩, fun _ => some "US26D", fun _ => none⟩

/-- C3 counterexample: at this row the category grounding check fails, yet
the code records no violation for it — the row comes back with an empty
review-field list, confidence 0.8 and lane AUTO.  Under the claim the failed
category check would append a named violation, making the row not ready
(nonzero violations) and hence lane ASSIST with a nonempty review list. -/
theorem category_check_appends_no_violation :
    refSvcNoCat.detectCategory (groundingText rowPO) = none
      ∧ (enrichRow refSvcNoCat "v1" rowPO).automation_lane = AutomationLane.AUTO
      ∧ (enrichRow refSvcNoCat "v1" rowPO).fields_requiring_review = some []
      ∧ (enrichRow refSvcNoCat "v1" rowPO).confidence_score = some 0.8
      ∧ groundingViolations refSvcNoCat rowPO = [] := by
  refine ⟨rfl, ?_, ?_, ?_, ?_⟩ <;>
    simp [enrichRow, groundingViolations, groundingScore, rowPO, refSvcNoCat, min_def]
  all_goals norm_num

/-- C3 (amended): for a non-EMAIL_COVER row the confidence is
min(0.2 + 0.4·[mfr] + 0.2·[finish] + 0.2·[category], 1); failed manufacturer
and finish checks each append their named violation while a failed category
check appends nothing (so the count is exactly the number of failed
manufacturer/finish checks); the row is ready iff there are zero violations
and confidence ≥ 0.8; and the lane is AUTO when ready, BLOCK when not ready
with more than 2 violations, and ASSIST otherwise. -/
theorem grounding_scoring_spec (refService : ReferenceService)
    (referenceVersion : String) (row : POLineRow)
    (h : row.doc_type ≠ DocType.EMAIL_COVER) :
    let m := (refService.normalizeManufacturer (groundingText row)).isSome
    let f := (refService.normalizeFinish (groundingText row)).isSome
    let c := (refService.detectCategory (groundingText row)).isSome
    let v := groundingViolations refService row
    let conf : ℚ := min ((if m then (0.4 : ℚ) else 0) + (if f then (0.2 : ℚ) else 0)
      + (if c then (0.2 : ℚ) else 0) + 0.2) 1
    (enrichRow refService referenceVersion row).confidence_score = some conf
      ∧ (m = false → "No Mfr Match" ∈ v)
      ∧ (f = false → "No Finish Match" ∈ v)
      ∧ v.length = (if m then 0 else 1) + (if f then 0 else 1)
      ∧ ((enrichRow refService referenceVersion row).sage_import_ready = some true
          ↔ (v = [] ∧ (0.8 : ℚ) ≤ conf))
      ∧ (enrichRow refService referenceVersion row).automation_lane
          = (if v = [] ∧ (0.8 : ℚ) ≤ conf then AutomationLane.AUTO
             else if 2 < v.length then AutomationLane.BLOCK else AutomationLane.ASSIST) := by
  intro m f c v conf
  rcases hm : refService.normalizeManufacturer (groundingText row) with _ | x <;>
    rcases hf : refService.normalizeFinish (groundingText row) with _ | y <;>
      rcases hc : refService.detectCategory (groundingText row) with _ | z <;>
        simp [m, f, c, v, conf, enrichRow, h, groundingViolations, groundingScore,
          hm, hf, hc, decide_eq_true_iff, min_def]

/-- Witness for C3 (amended) at a concrete row with all checks failing. -/
theorem grounding_scoring_spec_witness :
    rowPO.doc_type ≠ DocType.EMAIL_COVER
      ∧ ((enrichRow refSvcNone "v1" rowPO).confidence_score
            = some (min ((if (refSvcNone.normalizeManufacturer (groundingText rowPO)).isSome
                then (0.4 : ℚ) else 0)
              + (if (refSvcNone.normalizeFinish (groundingText rowPO)).isSome then (0.2 : ℚ) else 0)
              + (if (refSvcNone.detectCategory (groundingText rowPO)).isSome then (0.2 : ℚ) else 0)
              + 0.2) 1)
          ∧ ((refSvcNone.normalizeManufacturer (groundingText rowPO)).isSome = false
              → "No Mfr Match" ∈ groundingViolations refSvcNone rowPO)
          ∧ ((refSvcNone.normalizeFinish (groundingText rowPO)).isSome = false
              → "No Finish Match" ∈ groundingViolations refSvcNone rowPO)
          ∧ (groundingViolations refSvcNone rowPO).length
              = (if (refSvcNone.normalizeManufacturer (groundingText rowPO)).isSome then 0 else 1)
                + (if (refSvcNone.normalizeFinish (groundingText rowPO)).isSome then 0 else 1)
          ∧ ((enrichRow refSvcNone "v1" rowPO).sage_import_ready = some true
              ↔ (groundingViolations refSvcNone rowPO = []
                  ∧ (0.8 : ℚ) ≤ min ((if (refSvcNone.normalizeManufacturer (groundingText rowPO)).isSome
                      then (0.4 : ℚ) else 0)
                    + (if (refSvcNone.normalizeFinish (groundingText rowPO)).isSome then (0.2 : ℚ) else 0)
                    + (if (refSvcNone.detectCategory (groundingText rowPO)).isSome then (0.2 : ℚ) else 0)
                    + 0.2) 1))
          ∧ (enrichRow refSvcNone "v1" rowPO).automation_lane
              = (if groundingViolations refSvcNone rowPO = []
                    ∧ (0.8 : ℚ) ≤ min ((if (refSvcNone.normalizeManufacturer (groundingText rowPO)).isSome
                        then (0.4 : ℚ) else 0)
                      + (if (refSvcNone.normalizeFinish (groundingText rowPO)).isSome then (0.2 : ℚ) else 0)
                      + (if (refSvcNone.detectCategory (groundingText rowPO)).isSome then (0.2 : ℚ) else 0)
                      + 0.2) 1
                 then AutomationLane.AUTO
                 else if 2 < (groundingViolations refSvcNone rowPO).length then AutomationLane.BLOCK
                 else AutomationLane.ASSIST)) :=
  ⟨by decide, grounding_scoring_spec refSvcNone "v1" rowPO (by decide)⟩

/-- Run modes (services/abhSchema.ts `RunMode`). -/
inductive RunMode
  | SHADOW
  | PILOT
  | PRODUCTION
deriving DecidableEq, Repr

/-- Document routing decisions (services/abhSchema.ts `RoutingDecision`). -/
inductive RoutingDecision
  | AUTO_STAGE
  | REVIEW
  | HUMAN_REQUIRED
  | REJECTED
deriving DecidableEq, Repr

/-- Gate thresholds consumed by `buildPOExportsV1`. -/
structure Thresholds where
  auto_stage_min : ℚ
  review_min : ℚ
deriving DecidableEq, Repr

/-- `laneToDecision` (services/jsonExport.ts). -/
def laneToDecision : AutomationLane → RoutingDecision
  | AutomationLane.AUTO => RoutingDecision.AUTO_STAGE
  | AutomationLane.REVIEW => RoutingDecision.REVIEW
  | AutomationLane.ASSIST => RoutingDecision.REVIEW
  | AutomationLane.BLOCK => RoutingDecision.HUMAN_REQUIRED

/-- `safeMinConfidence` (services/jsonExport.ts): the minimum of the present
confidence scores clamped into [0,1], or the fallback when none is present. -/
def safeMinConfidence (rows : List POLineRow) (fallback : ℚ) : ℚ :=
  match rows.filterMap (·.confidence_score) with
  | [] => fallback
  | v :: vs => max 0 (min 1 (vs.foldl min v))

/-- One step of the JS `Map` grouping in `buildPOExportsV1`: append the row
to its doc_id group, creating the group at the end on first sight. -/
def insertRow (acc : List (String × List POLineRow)) (r : POLineRow) :
    List (String × List POLineRow) :=
  if acc.any (fun g => decide (g.1 = r.doc_id)) then
    acc.map (fun g => if g.1 = r.doc_id then (g.1, g.2 ++ [r]) else g)
  else acc ++ [(r.doc_id, [r])]

/-- Grouping of rows by doc_id with JS `Map` insertion-order semantics. -/
def groupByDocId (rows : List POLineRow) : List (String × List POLineRow) :=
  rows.foldl insertRow []

/-- Initial document-level decision of `buildPOExportsV1`
(services/jsonExport.ts lines 123-127): any BLOCK row forces HUMAN_REQUIRED,
else all-AUTO with no REVIEW/ASSIST row gives AUTO_STAGE, else REVIEW. -/
def docDecisionInitial (docRows : List POLineRow) : RoutingDecision :=
  if ∃ r ∈ docRows, r.automation_lane = AutomationLane.BLOCK then
    RoutingDecision.HUMAN_REQUIRED
  else if (∀ r ∈ docRows, r.automation_lane = AutomationLane.AUTO)
      ∧ ¬∃ r ∈ docRows, (r.automation_lane = AutomationLane.REVIEW
        ∨ r.automation_lane = AutomationLane.ASSIST) then
    RoutingDecision.AUTO_STAGE
  else RoutingDecision.REVIEW

/-- Document decision after the two sequential threshold downgrades
(services/jsonExport.ts lines 129-132).  A missing confidence_score counts
as 1, as in the source (`r.confidence_score ?? 1`). -/
def docDecision (docRows : List POLineRow) (thresholds : Thresholds) : RoutingDecision :=
  let decision0 := docDecisionInitial docRows
  let decision1 := if decision0 = RoutingDecision.AUTO_STAGE
      ∧ ∃ r ∈ docRows, r.confidence_score.getD 1 < thresholds.auto_stage_min then
    RoutingDecision.REVIEW
  else decision0
  if ∃ r ∈ docRows, r.confidence_score.getD 1 < thresholds.review_min then
    RoutingDecision.HUMAN_REQUIRED
  else decision1

/-- Decision-relevant projection of one `POExportV1` record.  Pure
presentation fields of the export (timestamps, audit events, rendered line
items, party names) are omitted from the embedding. -/
structure POExportDoc where
  document_id : String
  decision : RoutingDecision
  overall_confidence : ℚ
  thresholds : Thresholds
  auto_process_eligible : Bool
deriving DecidableEq, Repr

/-- `buildPOExportsV1` (services/jsonExport.ts): groups rows by doc_id and
emits one export per document; thresholds default to
auto_stage_min 0.9 / review_min 0.7. -/
def buildPOExportsV1 (rows : List POLineRow) (runMode : RunMode)
    (thresholdsOpt : Option Thresholds) : List POExportDoc :=
  let thresholds := thresholdsOpt.getD ⟨0.9, 0.7⟩
  (groupByDocId rows).map (fun g =>
    let decision := docDecision g.2 thresholds
    { document_id := g.1
      decision := decision
      overall_confidence := safeMinConfidence g.2 0
      thresholds := thresholds
      auto_process_eligible := decide (decision = RoutingDecision.AUTO_STAGE
        ∧ runMode = RunMode.PRODUCTION) })

/-- Strictness order on routing decisions: AUTO_STAGE is the least strict,
HUMAN_REQUIRED the strictest reachable value. -/
def decisionStrictness : RoutingDecision → ℕ
  | RoutingDecision.AUTO_STAGE => 0
  | RoutingDecision.REVIEW => 1
  | RoutingDecision.HUMAN_REQUIRED => 2
  | RoutingDecision.REJECTED => 3

/-- The export pipeline never produces the REJECTED decision. -/
theorem docDecisionInitial_ne_rejected (docRows : List POLineRow) :
    docDecisionInitial docRows ≠ RoutingDecision.REJECTED := by
  unfold docDecisionInitial
  split_ifs <;> simp

/-- C1: a document's initial decision is HUMAN_REQUIRED when any row is
BLOCK, AUTO_STAGE when every row is AUTO and none is REVIEW/ASSIST, and
REVIEW otherwise; the threshold pass downgrades AUTO_STAGE to REVIEW when a
row's confidence is below auto_stage_min and forces HUMAN_REQUIRED when a
row's confidence is below review_min regardless of the prior value; the
downgrades never decrease strictness; and buildPOExportsV1 assigns exactly
this decision to every exported document group. -/
theorem document_decision_spec (docRows : List POLineRow) (th : Thresholds)
    (rows : List POLineRow) (runMode : RunMode) (thOpt : Option Thresholds) :
    ((∃ r ∈ docRows, r.automation_lane = AutomationLane.BLOCK) →
        docDecisionInitial docRows = RoutingDecision.HUMAN_REQUIRED)
      ∧ ((∀ r ∈ docRows, r.automation_lane = AutomationLane.AUTO)
            ∧ (∀ r ∈ docRows, r.automation_lane ≠ AutomationLane.REVIEW
              ∧ r.automation_lane ≠ AutomationLane.ASSIST) →
          docDecisionInitial docRows = RoutingDecision.AUTO_STAGE)
      ∧ ((¬∃ r ∈ docRows, r.automation_lane = AutomationLane.BLOCK)
            ∧ ¬((∀ r ∈ docRows, r.automation_lane = AutomationLane.AUTO)
              ∧ (∀ r ∈ docRows, r.automation_lane ≠ AutomationLane.REVIEW
                ∧ r.automation_lane ≠ AutomationLane.ASSIST)) →
          docDecisionInitial docRows = RoutingDecision.REVIEW)
      ∧ docDecision docRows th
          = (if ∃ r ∈ docRows, r.confidence_score.getD 1 < th.review_min then
              RoutingDecision.HUMAN_REQUIRED
            else if docDecisionInitial docRows = RoutingDecision.AUTO_STAGE
                ∧ ∃ r ∈ docRows, r.confidence_score.getD 1 < th.auto_stage_min then
              RoutingDecision.REVIEW
            else docDecisionInitial docRows)
      ∧ decisionStrictness (docDecisionInitial docRows)
          ≤ decisionStrictness (docDecision docRows th)
      ∧ (buildPOExportsV1 rows runMode thOpt).map (·.decision)
          = (groupByDocId rows).map (fun g => docDecision g.2 (thOpt.getD ⟨0.9, 0.7⟩)) := by
  refine ⟨?_, ?_, ?_, ?_, ?_, ?_⟩
  · intro h
    unfold docDecisionInitial
    rw [if_pos h]
  · rintro ⟨hall, hnone⟩
    unfold docDecisionInitial
    rw [if_neg, if_pos]
    · refine ⟨hall, ?_⟩
      rintro ⟨r, hr, hor⟩
      rcases hor with h1 | h1 <;> [exact (hnone r hr).1 h1; exact (hnone r hr).2 h1]
    · rintro ⟨r, hr, hB⟩
      have := hall r hr
      rw [this] at hB
      exact absurd hB (by simp)
  · rintro ⟨hnb, hna⟩
    unfold docDecisionInitial
    rw [if_neg hnb, if_neg]
    rintro ⟨hall, -⟩
    exact hna ⟨hall, fun r hr => by simp [hall r hr]⟩
  · rfl
  · simp only [docDecision]
    split_ifs with h1 h2
    · rcases hI : docDecisionInitial docRows with _ | _ | _ | _ <;>
        simp [decisionStrictness]
      exact absurd hI (docDecisionInitial_ne_rejected docRows)
    · rw [h2.1]
      simp [decisionStrictness]
    · exact le_refl _
  · simp only [buildPOExportsV1, List.map_map]
    rfl

/-- Concrete all-AUTO rows used by the C1 witness. -/
def rowsAllAuto : List POLineRow :=
  [{ doc_id := "doc-9", doc_type := DocType.PURCHASE_ORDER, line_no := 1,
     confidence_score := some 1, automation_lane := AutomationLane.AUTO },
   { doc_id := "doc-9", doc_type := DocType.PURCHASE_ORDER, line_no := 2,
     confidence_score := some 1, automation_lane := AutomationLane.AUTO }]

/-- Witness for C1: a document whose rows are all AUTO starts at AUTO_STAGE. -/
theorem document_decision_spec_witness :
    ((∀ r ∈ rowsAllAuto, r.automation_lane = AutomationLane.AUTO)
        ∧ (∀ r ∈ rowsAllAuto, r.automation_lane ≠ AutomationLane.REVIEW
          ∧ r.automation_lane ≠ AutomationLane.ASSIST))
      ∧ docDecisionInitial rowsAllAuto = RoutingDecision.AUTO_STAGE :=
  ⟨by decide,
    (document_decision_spec rowsAllAuto ⟨0.9, 0.7⟩ rowsAllAuto RunMode.PRODUCTION
      none).2.1 (by decide)⟩

/-- One labeled truth-table observation (setup/calibrationMetrics.ts
`TruthTableRow`). -/
structure TruthTableRow where
  order_id : Option String := none
  line_id : Option String := none
  predicted_confidence : ℚ
  correct : ℚ
  item_number_correct : Option ℚ := none
  quantity_correct : Option ℚ := none
  unit_price_correct : Option ℚ := none
  ship_to_correct : Option ℚ := none
  is_credit_memo : Option ℚ := none
  has_special_layout : Option ℚ := none
  has_custom_length : Option ℚ := none
  is_zero_dollar : Option ℚ := none
  third_party_ship : Option ℚ := none
deriving DecidableEq, Repr

/-- Reliability bin of the calibration summary. -/
structure ReliabilityBin where
  bin_min : ℚ
  bin_max : ℚ
  avg_pred : ℚ
  empirical_acc : ℚ
  count : ℕ
deriving DecidableEq, Repr

/-- Coverage-by-threshold row of the calibration summary. -/
structure CoverageRow where
  threshold : ℚ
  auto_rate : ℚ
  expected_error_rate : ℚ
deriving DecidableEq, Repr

/-- Detected confidence scale ("0_1" or "0_100"). -/
inductive Scale
  | zeroOne
  | zeroHundred
deriving DecidableEq, Repr

/-- Calibration summary (`CalibrationComputed`); the nested field-level and
signals sub-objects of the source are flattened into optional fields. -/
structure CalibrationComputed where
  n_rows : ℕ
  confidence_scale_detected : Scale
  accuracy_line : ℚ
  acc_item_number : Option ℚ
  acc_quantity : Option ℚ
  acc_unit_price : Option ℚ
  acc_ship_to : Option ℚ
  brier_score : ℚ
  ece : ℚ
  reliability_bins : List ReliabilityBin
  coverage_by_threshold : List CoverageRow
  sig_credit_memo : Option ℚ
  sig_special_layout : Option ℚ
  sig_custom_length : Option ℚ
  sig_zero_dollar : Option ℚ
  sig_third_party_ship : Option ℚ
deriving DecidableEq, Repr

/-- JS `Math.max(...xs)` over a nonempty spread list (the 0 default for []
is unreachable: the caller has already rejected empty row sets). -/
def jsMaxList : List ℚ → ℚ
  | [] => 0
  | x :: xs => xs.foldl max x

/-- Clamp into [0,1] (`Math.min(1, Math.max(0, v))`). -/
def clamp01 (v : ℚ) : ℚ := min 1 (max 0 v)

/-- Scale detection (src/types.ts lines 243-244): 0_100 iff the maximum
predicted confidence exceeds 1.5. -/
def detectScale (rows : List TruthTableRow) : Scale :=
  if (1.5 : ℚ) < jsMaxList (rows.map (·.predicted_confidence)) then Scale.zeroHundred
  else Scale.zeroOne

/-- Normalization of one predicted value (src/types.ts lines 246-249). -/
def normConf (scale : Scale) (c : ℚ) : ℚ :=
  clamp01 (if scale = Scale.zeroHundred then c / 100 else c)

/-- Binary outcome of one row (src/types.ts line 252): correct ≥ 0.5. -/
def outcome (r : TruthTableRow) : ℚ := if (0.5 : ℚ) ≤ r.correct then 1 else 0

/-- Bin membership (src/types.ts line 273): half-open [min,max) bins, with
the last bin closed at both ends. -/
def binMember (bins b : ℕ) (v : ℚ) : Prop :=
  if b = bins - 1 then (b : ℚ) / (bins : ℚ) ≤ v ∧ v ≤ ((b : ℚ) + 1) / (bins : ℚ)
  else (b : ℚ) / (bins : ℚ) ≤ v ∧ v < ((b : ℚ) + 1) / (bins : ℚ)

instance (bins b : ℕ) (v : ℚ) : Decidable (binMember bins b v) :=
  if h : b = bins - 1 then
    decidable_of_iff ((b : ℚ) / (bins : ℚ) ≤ v ∧ v ≤ ((b : ℚ) + 1) / (bins : ℚ))
      (by simp [binMember, h])
  else
    decidable_of_iff ((b : ℚ) / (bins : ℚ) ≤ v ∧ v < ((b : ℚ) + 1) / (bins : ℚ))
      (by simp [binMember, h])

/-- One reliability bin (src/types.ts lines 268-287) over the zipped
(normalized prediction, outcome) pairs. -/
def reliabilityBin (pys : List (ℚ × ℚ)) (bins b : ℕ) : ReliabilityBin :=
  let inb := pys.filter (fun x => decide (binMember bins b x.1))
  let count := inb.length
  if count = 0 then
    { bin_min := (b : ℚ) / (bins : ℚ), bin_max := ((b : ℚ) + 1) / (bins : ℚ),
      avg_pred := 0, empirical_acc := 0, count := 0 }
  else
    { bin_min := (b : ℚ) / (bins : ℚ), bin_max := ((b : ℚ) + 1) / (bins : ℚ),
      avg_pred := (inb.map (·.1)).sum / (count : ℚ),
      empirical_acc := (inb.map (·.2)).sum / (count : ℚ),
      count := count }

/-- Contribution of one bin to the ECE sum (src/types.ts line 286); empty
bins are skipped by the source loop and contribute 0. -/
def eceTerm (n : ℕ) (bin : ReliabilityBin) : ℚ :=
  if bin.count = 0 then 0
  else ((bin.count : ℚ) / (n : ℚ)) * |bin.avg_pred - bin.empirical_acc|

/-- Fixed candidate threshold list (src/types.ts line 290). -/
def thresholdCandidates : List ℚ := [0.5, 0.6, 0.7, 0.75, 0.8, 0.85, 0.9, 0.92, 0.95, 0.98]

/-- Coverage at one threshold (src/types.ts lines 291-297). -/
def coverageAt (pys : List (ℚ × ℚ)) (n : ℕ) (t : ℚ) : CoverageRow :=
  let sel := pys.filter (fun x => decide (t ≤ x.1))
  if sel.length = 0 then { threshold := t, auto_rate := 0, expected_error_rate := 0 }
  else { threshold := t, auto_rate := (sel.length : ℚ) / (n : ℚ),
         expected_error_rate := 1 - (sel.map (·.2)).sum / (sel.length : ℚ) }

/-- Mean of an optional 0/1 indicator column (`fieldAcc` and `sig`,
src/types.ts lines 300-313): values other than exactly 0 or 1 and absent
values are dropped; undefined when nothing remains. -/
def optBinaryMean (vals : List (Option ℚ)) : Option ℚ :=
  let vs := (vals.filterMap id).filter (fun v => decide (v = 0 ∨ v = 1))
  if vs.length = 0 then none else some (vs.sum / (vs.length : ℚ))

/-- The ok-branch of `computeCalibration` (src/types.ts lines 242-341). -/
def calibCore (rows : List TruthTableRow) (bins : ℕ) : CalibrationComputed :=
  let scale := detectScale rows
  let p := rows.map (fun r => normConf scale r.predicted_confidence)
  let y := rows.map outcome
  let n := rows.length
  let pys := p.zip y
  { n_rows := n
    confidence_scale_detected := scale
    accuracy_line := y.sum / (n : ℚ)
    acc_item_number := optBinaryMean (rows.map (·.item_number_correct))
    acc_quantity := optBinaryMean (rows.map (·.quantity_correct))
    acc_unit_price := optBinaryMean (rows.map (·.unit_price_correct))
    acc_ship_to := optBinaryMean (rows.map (·.ship_to_correct))
    brier_score := (pys.map (fun x => (x.1 - x.2) * (x.1 - x.2))).sum / (n : ℚ)
    ece := ((List.range bins).map (fun b => eceTerm n (reliabilityBin pys bins b))).sum
    reliability_bins := (List.range bins).map (reliabilityBin pys bins)
    coverage_by_threshold := thresholdCandidates.map (coverageAt pys n)
    sig_credit_memo := optBinaryMean (rows.map (·.is_credit_memo))
    sig_special_layout := optBinaryMean (rows.map (·.has_special_layout))
    sig_custom_length := optBinaryMean (rows.map (·.has_custom_length))
    sig_zero_dollar := optBinaryMean (rows.map (·.is_zero_dollar))
    sig_third_party_ship := optBinaryMean (rows.map (·.third_party_ship)) }

/-- `computeCalibration` (src/types.ts line 237): throws the
insufficient-data error on zero rows, else returns the full summary. -/
def computeCalibration (rows : List TruthTableRow) (bins : ℕ) :
    Except String CalibrationComputed :=
  if rows = [] then
    Except.error "No usable rows found. Required columns: predicted_confidence and correct."
  else Except.ok (calibCore rows bins)

/-- `normKey` (src/types.ts line 195). -/
def normKey (k : String) : String := k.trim.toLower

/-- `get` (src/types.ts lines 198-205): value of the first synonym whose
normalized name matches a record key, "" when none matches.  Input records
are ordered field-name/value pairs; JS object keys are unique. -/
def getField (r : List (String × String)) : List String → String
  | [] => ""
  | k :: rest =>
    match r.find? (fun kv => decide (normKey kv.1 = normKey k)) with
    | some kv => kv.2
    | none => getField r rest

/-- `safeNum` (src/types.ts lines 151-155) on string cells: empty cells are
undefined before JS `Number` conversion runs; the `Number` builtin itself is
external, so it is a parameter returning none on non-finite results. -/
def safeNumStr (parseNum : String → Option ℚ) (v : String) : Option ℚ :=
  if v = "" then none else parseNum v

/-- JS `s || undefined` for string-valued columns. -/
def strOrNone (s : String) : Option String := if s = "" then none else some s

/-- Accepted header synonyms for the predicted-confidence column. -/
def predictedKeys : List String :=
  ["predicted_confidence", "confidence", "p_correct", "prob", "score"]

/-- Accepted header synonyms for the correctness column. -/
def correctKeys : List String := ["correct", "is_correct", "line_correct", "truth"]

/-- Per-row body of `coerceTruthTable` (src/types.ts lines 208-233): none
exactly when the predicted-confidence or correctness cell fails to parse. -/
def coerceRow (parseNum : String → Option ℚ) (r : List (String × String)) :
    Option TruthTableRow :=
  match safeNumStr parseNum (getField r predictedKeys),
      safeNumStr parseNum (getField r correctKeys) with
  | some predicted, some correct =>
    some { order_id := strOrNone (getField r ["order_id", "order_number", "po_number", "document_id"])
           line_id := strOrNone (getField r ["line_id", "row_id", "line_number"])
           predicted_confidence := predicted
           correct := correct
           item_number_correct := safeNumStr parseNum (getField r ["item_number_correct", "item_correct"])
           quantity_correct := safeNumStr parseNum (getField r ["quantity_correct", "qty_correct"])
           unit_price_correct := safeNumStr parseNum (getField r ["unit_price_correct", "price_correct"])
           ship_to_correct := safeNumStr parseNum (getField r ["ship_to_correct", "shipto_correct"])
           is_credit_memo := safeNumStr parseNum (getField r ["is_credit_memo", "credit_memo"])
           has_special_layout := safeNumStr parseNum (getField r ["has_special_layout", "special_layout"])
           has_custom_length := safeNumStr parseNum (getField r ["has_custom_length", "custom_length"])
           is_zero_dollar := safeNumStr parseNum (getField r ["is_zero_dollar", "zero_dollar"])
           third_party_ship := safeNumStr parseNum (getField r ["third_party_ship", "third_party"]) }
  | _, _ => none

/-- `coerceTruthTable` (src/types.ts lines 194-235): per-row coercion with
silent filtering of unparseable rows. -/
def coerceTruthTable (parseNum : String → Option ℚ)
    (rows : List (List (String × String))) : List TruthTableRow :=
  rows.filterMap (coerceRow parseNum)

/-- C10: coerceTruthTable is total and keeps exactly the input rows whose
predicted-confidence and correctness cells parse to a number — individual
malformed rows are dropped with no error — while computeCalibration returns
the insufficient-data error exactly on an empty row list. -/
theorem coercion_and_empty_failure (parseNum : String → Option ℚ)
    (rows : List (List (String × String))) (bins : ℕ) :
    (∀ r ∈ rows, ((coerceRow parseNum r).isSome
        ↔ (safeNumStr parseNum (getField r predictedKeys)).isSome
          ∧ (safeNumStr parseNum (getField r correctKeys)).isSome))
      ∧ coerceTruthTable parseNum rows = rows.filterMap (coerceRow parseNum)
      ∧ (∀ t : List TruthTableRow, (∃ c, computeCalibration t bins = Except.ok c) ↔ t ≠ [])
      ∧ (∀ t : List TruthTableRow,
          (∃ e, computeCalibration t bins = Except.error e) ↔ t = []) := by
  refine ⟨?_, rfl, ?_, ?_⟩
  · intro r _
    unfold coerceRow
    rcases safeNumStr parseNum (getField r predictedKeys) with _ | p <;>
      rcases safeNumStr parseNum (getField r correctKeys) with _ | c <;> simp
  · intro t
    by_cases ht : t = [] <;> simp [computeCalibration, ht]
  · intro t
    by_cases ht : t = [] <;> simp [computeCalibration, ht]

/-- Witness for C10 at the empty truth table. -/
theorem coercion_and_empty_failure_witness :
    (∃ c, computeCalibration ([] : List TruthTableRow) 10 = Except.ok c)
      ↔ ([] : List TruthTableRow) ≠ [] :=
  (coercion_and_empty_failure (fun _ => none) [] 10).2.2.1 []

/-- Both the starting value and every member bound the running Math.max
fold from below. -/
theorem le_foldl_max (l : List ℚ) :
    ∀ a : ℚ, a ≤ l.foldl max a ∧ ∀ x ∈ l, x ≤ l.foldl max a := by
  induction l with
  | nil => intro a; simp
  | cons b t ih =>
    intro a
    simp only [List.foldl_cons]
    refine ⟨le_trans (le_max_left a b) (ih (max a b)).1, ?_⟩
    intro x hx
    rcases List.mem_cons.mp hx with rfl | hx
    · exact le_trans (le_max_right a x) (ih (max a x)).1
    · exact (ih (max a b)).2 x hx

/-- The running Math.max fold is the initial value or a member. -/
theorem foldl_max_mem (l : List ℚ) :
    ∀ a : ℚ, l.foldl max a = a ∨ l.foldl max a ∈ l := by
  induction l with
  | nil => intro a; simp
  | cons b t ih =>
    intro a
    simp only [List.foldl_cons]
    rcases ih (max a b) with h | h
    · rcases max_choice a b with hm | hm
      · left; rw [hm] at h ⊢; exact h
      · right; rw [hm] at h ⊢; rw [h]; exact List.mem_cons_self _ _
    · right; exact List.mem_cons_of_mem _ h

/-- `jsMaxList` of a nonempty list is a member and bounds every member. -/
theorem jsMaxList_is_max (x : ℚ) (xs : List ℚ) :
    (∀ z ∈ x :: xs, z ≤ jsMaxList (x :: xs)) ∧ jsMaxList (x :: xs) ∈ x :: xs := by
  simp only [jsMaxList]
  constructor
  · intro z hz
    rcases List.mem_cons.mp hz with rfl | hz
    · exact (le_foldl_max xs z).1
    · exact (le_foldl_max xs x).2 z hz
  · rcases foldl_max_mem xs x with h | h
    · rw [h]; exact List.mem_cons_self _ _
    · exact List.mem_cons_of_mem _ h

/-- C6: on a non-empty truth table computeCalibration succeeds; when every
predicted confidence is ≤ 1.5 the detected scale is 0_1 and normalization
only clamps into [0,1]; when any predicted confidence exceeds 1.5 the
detected scale is 0_100 and every value is divided by 100 before the
clamp. -/
theorem scale_detection_spec (rows : List TruthTableRow) (bins : ℕ)
    (hne : rows ≠ []) :
    ∃ c, computeCalibration rows bins = Except.ok c
      ∧ ((∀ r ∈ rows, r.predicted_confidence ≤ 1.5) →
          c.confidence_scale_detected = Scale.zeroOne
            ∧ ∀ r ∈ rows, normConf (detectScale rows) r.predicted_confidence
                = min 1 (max 0 r.predicted_confidence))
      ∧ ((∃ r ∈ rows, (1.5 : ℚ) < r.predicted_confidence) →
          c.confidence_scale_detected = Scale.zeroHundred
            ∧ ∀ r ∈ rows, normConf (detectScale rows) r.predicted_confidence
                = min 1 (max 0 (r.predicted_confidence / 100))) := by
  rcases hrows : rows with _ | ⟨r0, rest⟩
  · exact absurd hrows hne
  refine ⟨calibCore (r0 :: rest) bins, by simp [computeCalibration], ?_, ?_⟩
  · intro hall
    have hscale : detectScale (r0 :: rest) = Scale.zeroOne := by
      unfold detectScale
      rw [if_neg]
      rw [not_lt]
      have hmem := (jsMaxList_is_max (r0.predicted_confidence)
        (rest.map (·.predicted_confidence))).2
      rw [show r0.predicted_confidence :: rest.map (·.predicted_confidence)
          = (r0 :: rest).map (·.predicted_confidence) by simp] at hmem
      rcases List.mem_map.mp hmem with ⟨r, hr, hEq⟩
      rw [← hEq]
      exact hall r hr
    exact ⟨hscale, fun r _ => by simp [normConf, hscale, clamp01]⟩
  · rintro ⟨r, hr, hgt⟩
    have hscale : detectScale (r0 :: rest) = Scale.zeroHundred := by
      unfold detectScale
      rw [if_pos]
      have hle := (jsMaxList_is_max (r0.predicted_confidence)
        (rest.map (·.predicted_confidence))).1
      rw [show r0.predicted_confidence :: rest.map (·.predicted_confidence)
          = (r0 :: rest).map (·.predicted_confidence) by simp] at hle
      exact lt_of_lt_of_le hgt (hle _ (List.mem_map_of_mem _ hr))
    exact ⟨hscale, fun r _ => by simp [normConf, hscale, clamp01]⟩

/-- Concrete truth-table row used by the calibration witnesses. -/
def ttRowA : TruthTableRow := { predicted_confidence := 0.9, correct := 1 }

/-- Witness for C6 at a one-row truth table. -/
theorem scale_detection_spec_witness :
    [ttRowA] ≠ ([] : List TruthTableRow)
      ∧ ∃ c, computeCalibration [ttRowA] 10 = Except.ok c
        ∧ ((∀ r ∈ [ttRowA], r.predicted_confidence ≤ 1.5) →
            c.confidence_scale_detected = Scale.zeroOne
              ∧ ∀ r ∈ [ttRowA], normConf (detectScale [ttRowA]) r.predicted_confidence
                  = min 1 (max 0 r.predicted_confidence))
        ∧ ((∃ r ∈ [ttRowA], (1.5 : ℚ) < r.predicted_confidence) →
            c.confidence_scale_detected = Scale.zeroHundred
              ∧ ∀ r ∈ [ttRowA], normConf (detectScale [ttRowA]) r.predicted_confidence
                  = min 1 (max 0 (r.predicted_confidence / 100))) :=
  ⟨by simp, scale_detection_spec [ttRowA] 10 (by simp)⟩

/-- Suggested policy gates (`suggestGates` return shape). -/
structure GateSuggestion where
  auto_process_min : ℚ
  review_min : ℚ
  block_below : ℚ
deriving DecidableEq, Repr

/-- Rounding performed by `Number(x.toFixed(2))`: to two decimal places,
ties toward the larger value. -/
def round2 (q : ℚ) : ℚ := ((⌊q * 100 + 0.5⌋ : ℤ) : ℚ) / 100

/-- JS `Math.min(...xs)` over a nonempty spread list (the 0 default for []
is unreachable: the caller checks candidates.length first). -/
def jsMinList : List ℚ → ℚ
  | [] => 0
  | x :: xs => xs.foldl min x

/-- Qualifying coverage rows of `suggestGates` (src/types.ts line 352). -/
def gateCandidates (coverage : List CoverageRow) (maxError : ℚ) : List CoverageRow :=
  coverage.filter (fun c => decide (0 < c.auto_rate ∧ c.expected_error_rate ≤ maxError))

/-- The unrounded auto threshold of `suggestGates` (src/types.ts line 353):
the minimum qualifying threshold, 0.95 when nothing qualifies. -/
def gateAuto (coverage : List CoverageRow) (maxError : ℚ) : ℚ :=
  if (gateCandidates coverage maxError).length ≠ 0 then
    jsMinList ((gateCandidates coverage maxError).map (·.threshold))
  else 0.95

/-- `suggestGates` (src/types.ts lines 347-364). -/
def suggestGates (coverage : List CoverageRow) (maxError : ℚ) : GateSuggestion :=
  let auto := gateAuto coverage maxError
  let review : ℚ := min (auto - 0.15) 0.85
  let block : ℚ := 0.50
  { auto_process_min := round2 auto
    review_min := round2 (max 0 review)
    block_below := round2 block }

/-- Both the starting value and every member bound the running Math.min
fold from above. -/
theorem foldl_min_le (l : List ℚ) :
    ∀ a : ℚ, l.foldl min a ≤ a ∧ ∀ x ∈ l, l.foldl min a ≤ x := by
  induction l with
  | nil => intro a; simp
  | cons b t ih =>
    intro a
    simp only [List.foldl_cons]
    refine ⟨le_trans (ih (min a b)).1 (min_le_left a b), ?_⟩
    intro x hx
    rcases List.mem_cons.mp hx with rfl | hx
    · exact le_trans (ih (min a x)).1 (min_le_right a x)
    · exact (ih (min a b)).2 x hx

/-- The running Math.min fold is the initial value or a member. -/
theorem foldl_min_mem (l : List ℚ) :
    ∀ a : ℚ, l.foldl min a = a ∨ l.foldl min a ∈ l := by
  induction l with
  | nil => intro a; simp
  | cons b t ih =>
    intro a
    simp only [List.foldl_cons]
    rcases ih (min a b) with h | h
    · rcases min_choice a b with hm | hm
      · left; rw [hm] at h ⊢; exact h
      · right; rw [hm] at h ⊢; rw [h]; exact List.mem_cons_self _ _
    · right; exact List.mem_cons_of_mem _ h

/-- `jsMinList` of a nonempty list is a member and bounds every member. -/
theorem jsMinList_is_min (x : ℚ) (xs : List ℚ) :
    (∀ z ∈ x :: xs, jsMinList (x :: xs) ≤ z) ∧ jsMinList (x :: xs) ∈ x :: xs := by
  simp only [jsMinList]
  constructor
  · intro z hz
    rcases List.mem_cons.mp hz with rfl | hz
    · exact (foldl_min_le xs z).1
    · exact (foldl_min_le xs x).2 z hz
  · rcases foldl_min_mem xs x with h | h
    · rw [h]; exact List.mem_cons_self _ _
    · exact List.mem_cons_of_mem _ h

/-- C5 counterexample: with a single qualifying coverage row at threshold
0.111, suggestGates returns 0.11 — the toFixed(2) rounding applied by the
source — and not the lowest qualifying threshold 0.111 that the claim
demands for every coverage table. -/
theorem suggestGates_rounding_counterexample :
    (suggestGates [⟨0.111, 1, 0⟩] 0.02).auto_process_min = 0.11
      ∧ (0.11 : ℚ) ≠ (0.111 : ℚ) := by
  constructor
  · have hcand : gateCandidates [⟨0.111, 1, 0⟩] 0.02 = [⟨0.111, 1, 0⟩] := by
      norm_num [gateCandidates, List.filter_cons, List.filter_nil, decide_eq_true_eq]
    have hauto : gateAuto [⟨0.111, 1, 0⟩] 0.02 = 0.111 := by
      unfold gateAuto
      rw [hcand]
      norm_num [jsMinList]
    show round2 (gateAuto [⟨0.111, 1, 0⟩] 0.02) = 0.11
    rw [hauto]
    norm_num [round2, Int.floor_eq_iff]
  · norm_num

/-- Synthetic coverage table in which exactly the thresholds 0.9 and 0.95
meet the error bound 0.02 with positive auto rate. -/
def covSynth : List CoverageRow := [⟨0.5, 1, 0.2⟩, ⟨0.9, 0.5, 0.01⟩, ⟨0.95, 0.3, 0⟩]

/-- C5 (amended): block_below is always 0.50; when some coverage row
qualifies (auto_rate > 0, expected_error_rate ≤ maxError), auto_process_min
is the lowest qualifying threshold rounded to two decimals and review_min is
max(0, min(t − 0.15, 0.85)) of the unrounded lowest qualifying threshold t,
rounded to two decimals; with no qualifying row the defaults (0.95, 0.80,
0.50) are returned; and on the synthetic table where exactly 0.9 and 0.95
meet maxError = 0.02 the result is (0.9, 0.75, 0.50). -/
theorem suggestGates_spec (coverage : List CoverageRow) (maxError : ℚ) :
    (suggestGates coverage maxError).block_below = 0.50
      ∧ ((∃ c ∈ coverage, 0 < c.auto_rate ∧ c.expected_error_rate ≤ maxError) →
          ∃ t0 : ℚ, (∃ c ∈ coverage, (0 < c.auto_rate ∧ c.expected_error_rate ≤ maxError)
              ∧ c.threshold = t0)
            ∧ (∀ c ∈ coverage, 0 < c.auto_rate → c.expected_error_rate ≤ maxError →
                t0 ≤ c.threshold)
            ∧ (suggestGates coverage maxError).auto_process_min = round2 t0
            ∧ (suggestGates coverage maxError).review_min
                = round2 (max 0 (min (t0 - 0.15) 0.85)))
      ∧ ((∀ c ∈ coverage, ¬(0 < c.auto_rate ∧ c.expected_error_rate ≤ maxError)) →
          suggestGates coverage maxError = ⟨0.95, 0.80, 0.50⟩)
      ∧ suggestGates covSynth 0.02 = ⟨0.9, 0.75, 0.50⟩ := by
  refine ⟨?_, ?_, ?_, ?_⟩
  · show round2 0.50 = 0.50
    norm_num [round2, Int.floor_eq_iff]
  · rintro ⟨c0, hc0, hq0⟩
    have hc0c : c0 ∈ gateCandidates coverage maxError :=
      List.mem_filter.mpr ⟨hc0, by rw [decide_eq_true_eq]; exact hq0⟩
    rcases hcand : gateCandidates coverage maxError with _ | ⟨x, xs⟩
    · rw [hcand] at hc0c; simp at hc0c
    have hauto : gateAuto coverage maxError = jsMinList ((x :: xs).map (·.threshold)) := by
      unfold gateAuto
      rw [hcand, if_pos (by simp)]
    refine ⟨jsMinList ((x :: xs).map (·.threshold)), ?_, ?_, ?_, ?_⟩
    · have hmem := (jsMinList_is_min x.threshold (xs.map (·.threshold))).2
      rw [show x.threshold :: xs.map (·.threshold) = (x :: xs).map (·.threshold) from rfl] at hmem
      rcases List.mem_map.mp hmem with ⟨c, hcmem, hEq⟩
      have hcf : c ∈ gateCandidates coverage maxError := hcand ▸ hcmem
      rcases List.mem_filter.mp hcf with ⟨hcc, hq⟩
      rw [decide_eq_true_eq] at hq
      exact ⟨c, hcc, hq, hEq⟩
    · intro c hcc h1 h2
      have hcf : c ∈ gateCandidates coverage maxError :=
        List.mem_filter.mpr ⟨hcc, by rw [decide_eq_true_eq]; exact ⟨h1, h2⟩⟩
      rw [hcand] at hcf
      have hle := (jsMinList_is_min x.threshold (xs.map (·.threshold))).1
      rw [show x.threshold :: xs.map (·.threshold) = (x :: xs).map (·.threshold) from rfl] at hle
      exact hle _ (List.mem_map_of_mem _ hcf)
    · show round2 (gateAuto coverage maxError) = _
      rw [hauto]
    · show round2 (max 0 (min (gateAuto coverage maxError - 0.15) 0.85)) = _
      rw [hauto]
  · intro hnone
    have hcand : gateCandidates coverage maxError = [] := by
      rw [gateCandidates, List.filter_eq_nil_iff]
      intro c hc
      rw [decide_eq_true_eq]
      exact hnone c hc
    have hauto : gateAuto coverage maxError = 0.95 := by
      unfold gateAuto
      rw [hcand, if_neg (by simp)]
    have h1 : suggestGates coverage maxError
        = ⟨round2 0.95, round2 (max 0 (min ((0.95 : ℚ) - 0.15) 0.85)), round2 0.50⟩ := by
      show (⟨round2 (gateAuto coverage maxError),
        round2 (max 0 (min (gateAuto coverage maxError - 0.15) 0.85)),
        round2 0.50⟩ : GateSuggestion) = _
      rw [hauto]
    rw [h1]
    norm_num [round2, min_def, max_def, Int.floor_eq_iff]
  · show suggestGates covSynth 0.02 = ⟨0.9, 0.75, 0.50⟩
    have hcand : gateCandidates covSynth 0.02 = [⟨0.9, 0.5, 0.01⟩, ⟨0.95, 0.3, 0⟩] := by
      norm_num [gateCandidates, covSynth, List.filter_cons, List.filter_nil, decide_eq_true_eq]
    have hauto : gateAuto covSynth 0.02 = jsMinList [(0.9 : ℚ), 0.95] := by
      unfold gateAuto
      rw [hcand, if_pos (by simp)]
      rfl
    have h1 : suggestGates covSynth 0.02
        = ⟨round2 (jsMinList [(0.9 : ℚ), 0.95]),
           round2 (max 0 (min (jsMinList [(0.9 : ℚ), 0.95] - 0.15) 0.85)), round2 0.50⟩ := by
      show (⟨round2 (gateAuto covSynth 0.02),
        round2 (max 0 (min (gateAuto covSynth 0.02 - 0.15) 0.85)),
        round2 0.50⟩ : GateSuggestion) = _
      rw [hauto]
    rw [h1]
    norm_num [jsMinList, round2, min_def, max_def, Int.floor_eq_iff]

/-- Witness for C5 (amended) at the synthetic coverage table. -/
theorem suggestGates_spec_witness :
    (∃ c ∈ covSynth, 0 < c.auto_rate ∧ c.expected_error_rate ≤ (0.02 : ℚ))
      ∧ ∃ t0 : ℚ, (∃ c ∈ covSynth, (0 < c.auto_rate ∧ c.expected_error_rate ≤ (0.02 : ℚ))
          ∧ c.threshold = t0)
        ∧ (∀ c ∈ covSynth, 0 < c.auto_rate → c.expected_error_rate ≤ (0.02 : ℚ) →
            t0 ≤ c.threshold)
        ∧ (suggestGates covSynth 0.02).auto_process_min = round2 t0
        ∧ (suggestGates covSynth 0.02).review_min
            = round2 (max 0 (min (t0 - 0.15) 0.85)) :=
  ⟨⟨⟨0.9, 0.5, 0.01⟩, by norm_num [covSynth], by norm_num⟩,
    (suggestGates_spec covSynth 0.02).2.1
      ⟨⟨0.9, 0.5, 0.01⟩, by norm_num [covSynth], by norm_num⟩⟩

/-- Page labels (src/unnamed/part_010 `PageLabel`). -/
inductive PageLabel
  | PURCHASE_ORDER
  | CREDIT_MEMO
  | INVOICE
  | SALES_ORDER
  | PICKING_SHEET
  | EMAIL_COVER
  | UNKNOWN
deriving DecidableEq, Repr

/-- Rendering of a page label inside a JS template literal. -/
def pageLabelStr : PageLabel → String
  | PageLabel.PURCHASE_ORDER => "PURCHASE_ORDER"
  | PageLabel.CREDIT_MEMO => "CREDIT_MEMO"
  | PageLabel.INVOICE => "INVOICE"
  | PageLabel.SALES_ORDER => "SALES_ORDER"
  | PageLabel.PICKING_SHEET => "PICKING_SHEET"
  | PageLabel.EMAIL_COVER => "EMAIL_COVER"
  | PageLabel.UNKNOWN => "UNKNOWN"

/-- Per-page triage result (src/unnamed/part_010 `PageTriage`). -/
structure PageTriage where
  pageIndex : ℕ
  text : String
  label : PageLabel
  score : ℚ
  reasons : List String
deriving DecidableEq, Repr

/-- Contiguous run of same-label pages (src/unnamed/part_010 `DocSegment`). -/
structure DocSegment where
  segmentId : String
  label : PageLabel
  pageStart : ℕ
  pageEnd : ℕ
  pages : List ℕ
  triage : List PageTriage
deriving DecidableEq, Repr

/-- Fresh singleton segment opened at page p (src/unnamed/part_010
lines 153-160). -/
def newSegment (p : PageTriage) : DocSegment :=
  { segmentId := "seg-" ++ toString p.pageIndex ++ "-" ++ pageLabelStr p.label
    label := p.label
    pageStart := p.pageIndex
    pageEnd := p.pageIndex
    pages := [p.pageIndex]
    triage := [p] }

/-- Extension of the current segment by page p (src/unnamed/part_010
lines 162-164). -/
def extendSegment (c : DocSegment) (p : PageTriage) : DocSegment :=
  { c with pageEnd := p.pageIndex, pages := c.pages ++ [p.pageIndex],
           triage := c.triage ++ [p] }

/-- Greedy scan of `buildSegments` (src/unnamed/part_010 lines 144-166),
carrying the open segment.  A split happens when there is no open segment,
the labels differ, or either label is UNKNOWN; the closed segment is pushed
and a fresh one opened. -/
def buildSegmentsGo : Option DocSegment → List PageTriage → List DocSegment
  | current, [] => current.toList
  | none, p :: rest => buildSegmentsGo (some (newSegment p)) rest
  | some c, p :: rest =>
    if p.label ≠ c.label ∨ p.label = PageLabel.UNKNOWN ∨ c.label = PageLabel.UNKNOWN then
      c :: buildSegmentsGo (some (newSegment p)) rest
    else
      buildSegmentsGo (some (extendSegment c p)) rest

/-- `buildSegments` (src/unnamed/part_010 lines 135-170). -/
def buildSegments (triage : List PageTriage) : List DocSegment :=
  buildSegmentsGo none triage

/-- Invariant of every emitted segment: all its pages carry the segment
label, and an UNKNOWN segment holds exactly one page. -/
def segWellFormed (s : DocSegment) : Prop :=
  (∀ t ∈ s.triage, t.label = s.label)
    ∧ (s.label = PageLabel.UNKNOWN → s.pages.length = 1)

/-- Every segment produced by the greedy scan from a well-formed open
segment is well-formed. -/
theorem buildSegmentsGo_wellFormed :
    ∀ (l : List PageTriage) (current : Option DocSegment),
      (∀ c, current = some c → segWellFormed c) →
      ∀ s ∈ buildSegmentsGo current l, segWellFormed s := by
  intro l
  induction l with
  | nil =>
    intro current h s hs
    rcases current with _ | c
    · simp [buildSegmentsGo] at hs
    · simp [buildSegmentsGo, Option.toList] at hs
      rw [hs]
      exact h c rfl
  | cons p rest ih =>
    intro current h s hs
    rcases current with _ | c
    · refine ih (some (newSegment p)) ?_ s hs
      rintro c' hc'
      cases hc'
      exact ⟨by simp [newSegment], by simp [newSegment]⟩
    · rw [buildSegmentsGo] at hs
      split at hs
      · rcases List.mem_cons.mp hs with rfl | hs'
        · exact h s rfl
        · refine ih (some (newSegment p)) ?_ s hs'
          rintro c' hc'
          cases hc'
          exact ⟨by simp [newSegment], by simp [newSegment]⟩
      · rename_i hsplit
        push_neg at hsplit
        obtain ⟨hlab, hpu, hcu⟩ := hsplit
        refine ih (some (extendSegment c p)) ?_ s hs
        rintro c' hc'
        cases hc'
        have hwf := h c rfl
        constructor
        · intro t ht
          simp only [extendSegment, List.mem_append, List.mem_singleton] at ht
          rcases ht with ht | rfl
          · exact hwf.1 t ht
          · exact hlab
        · intro hu
          exact absurd hu hcu

/-- Concrete triage list with labels [PO, PO, UNKNOWN, PO, PO]. -/
def exTriage : List PageTriage :=
  [⟨0, "", PageLabel.PURCHASE_ORDER, 0.95, []⟩,
   ⟨1, "", PageLabel.PURCHASE_ORDER, 0.95, []⟩,
   ⟨2, "", PageLabel.UNKNOWN, 0.2, []⟩,
   ⟨3, "", PageLabel.PURCHASE_ORDER, 0.95, []⟩,
   ⟨4, "", PageLabel.PURCHASE_ORDER, 0.95, []⟩]

/-- C8: buildSegments never merges an UNKNOWN page with any other page
(every UNKNOWN segment is a singleton) and merges adjacent pages only while
they share the segment's label; on labels [PO, PO, UNKNOWN, PO, PO] it
yields exactly the three segments pages {0,1} PO, page {2} UNKNOWN, pages
{3,4} PO. -/
theorem segmentation_spec (triage : List PageTriage) :
    (∀ s ∈ buildSegments triage,
        (∀ t ∈ s.triage, t.label = s.label)
          ∧ (s.label = PageLabel.UNKNOWN → s.pages.length = 1))
      ∧ (buildSegments exTriage).map (fun s => (s.label, s.pages))
          = [(PageLabel.PURCHASE_ORDER, [0, 1]), (PageLabel.UNKNOWN, [2]),
             (PageLabel.PURCHASE_ORDER, [3, 4])] := by
  constructor
  · intro s hs
    exact buildSegmentsGo_wellFormed triage none (by rintro c hc; cases hc) s hs
  · rfl

/-- First segment of the concrete run of C8, used by its witness. -/
def seg01 : DocSegment :=
  { segmentId := "seg-0-PURCHASE_ORDER", label := PageLabel.PURCHASE_ORDER,
    pageStart := 0, pageEnd := 1, pages := [0, 1],
    triage := [⟨0, "", PageLabel.PURCHASE_ORDER, 0.95, []⟩,
               ⟨1, "", PageLabel.PURCHASE_ORDER, 0.95, []⟩] }

/-- Witness for C8: the first segment of the concrete run satisfies the
per-segment invariant. -/
theorem segmentation_spec_witness :
    seg01 ∈ buildSegments exTriage
      ∧ ((∀ t ∈ seg01.triage, t.label = seg01.label)
          ∧ (seg01.label = PageLabel.UNKNOWN → seg01.pages.length = 1)) :=
  ⟨by simp [buildSegments, buildSegmentsGo, exTriage, newSegment, extendSegment, seg01]; rfl,
    (segmentation_spec exTriage).1 seg01
      (by simp [buildSegments, buildSegmentsGo, exTriage, newSegment, extendSegment, seg01]
          rfl)⟩

/-- Fields of one structured document that `buildSignature` reads
(services/geminiService.ts lines 434-448); line items are kept as a list
because only their count enters the signature. -/
structure SigDocInput where
  document_id : Option String := none
  document_type : Option String := none
  page_start : Option Int := none
  page_end : Option Int := none
  source_pages : Option (List ℕ) := none
  customer_order_no : Option String := none
  line_items : List Unit := []
deriving DecidableEq, Repr

/-- Per-document signature (services/geminiService.ts `DocSignature`). -/
structure DocSignature where
  doc_id : String
  doc_type : String
  page_start : Option Int := none
  page_end : Option Int := none
  source_pages_count : Option ℕ := none
  line_count : ℕ
  customer_order_no : Option String := none
deriving DecidableEq, Repr

/-- Whole-run signature (services/geminiService.ts `ParseSignature`). -/
structure ParseSignature where
  schema : String
  file_hash : String
  filename : String
  created_at : String
  doc_count : ℕ
  docs : List DocSignature
deriving DecidableEq, Repr

/-- JS `String(x || fallback)` on an optional string ("" is falsy). -/
def jsStrOr (o : Option String) (fallback : String) : String :=
  match o with
  | some s => if s = "" then fallback else s
  | none => fallback

/-- Projection of one document to its signature (services/geminiService.ts
lines 434-448). -/
def toDocSig (d : SigDocInput) : DocSignature :=
  { doc_id := jsStrOr d.document_id ""
    doc_type := jsStrOr d.document_type "UNKNOWN"
    page_start := d.page_start
    page_end := d.page_end
    source_pages_count := d.source_pages.map (·.length)
    line_count := d.line_items.length
    customer_order_no := d.customer_order_no }

/-- Composite sort key `type|page_start|page_end|line_count` with missing
page bounds rendered as the 9999 sentinel (services/geminiService.ts
lines 452-453). -/
def sigKey (d : DocSignature) : String :=
  d.doc_type ++ "|" ++ (match d.page_start with | some n => toString n | none => "9999")
    ++ "|" ++ (match d.page_end with | some n => toString n | none => "9999")
    ++ "|" ++ toString d.line_count

/-- Lexicographic code-unit comparison of char lists; the JS comparator
`ka.localeCompare(kb)` is modelled as this total order on the key strings. -/
def charsLe : List Char → List Char → Bool
  | [], _ => true
  | _ :: _, [] => false
  | c1 :: t1, c2 :: t2 =>
    if c1.toNat < c2.toNat then true
    else if c2.toNat < c1.toNat then false
    else charsLe t1 t2

/-- Key-string comparator of the signature sort. -/
def keyLe (a b : String) : Bool := charsLe a.data b.data

/-- `charsLe` is total. -/
theorem charsLe_total : ∀ l1 l2 : List Char, charsLe l1 l2 = true ∨ charsLe l2 l1 = true := by
  intro l1
  induction l1 with
  | nil => intro l2; left; rfl
  | cons c1 t1 ih =>
    intro l2
    rcases l2 with _ | ⟨c2, t2⟩
    · right; rfl
    by_cases h1 : c1.toNat < c2.toNat
    · left; simp [charsLe, h1]
    by_cases h2 : c2.toNat < c1.toNat
    · right; simp [charsLe, h2]
    rcases ih t2 with h | h
    · left; simp [charsLe, h1, h2, h]
    · right; simp [charsLe, h1, h2, h]

/-- `charsLe` is transitive. -/
theorem charsLe_trans : ∀ l1 l2 l3 : List Char,
    charsLe l1 l2 = true → charsLe l2 l3 = true → charsLe l1 l3 = true := by
  intro l1
  induction l1 with
  | nil => intro l2 l3 _ _; rfl
  | cons c1 t1 ih =>
    intro l2 l3 h12 h23
    rcases l2 with _ | ⟨c2, t2⟩
    · simp [charsLe] at h12
    rcases l3 with _ | ⟨c3, t3⟩
    · simp [charsLe] at h23
    simp only [charsLe] at h12 h23 ⊢
    by_cases ha : c1.toNat < c2.toNat
    · by_cases hb : c2.toNat < c3.toNat
      · have h13 : c1.toNat < c3.toNat := lt_trans ha hb
        simp [h13]
      · by_cases hd : c3.toNat < c2.toNat
        · rw [if_neg hb, if_pos hd] at h23
          simp at h23
        · have h13 : c1.toNat < c3.toNat := by omega
          simp [h13]
    · by_cases hc : c2.toNat < c1.toNat
      · rw [if_neg ha, if_pos hc] at h12
        simp at h12
      · rw [if_neg ha, if_neg hc] at h12
        by_cases hb : c2.toNat < c3.toNat
        · have h13 : c1.toNat < c3.toNat := by omega
          simp [h13]
        · by_cases hd : c3.toNat < c2.toNat
          · rw [if_neg hb, if_pos hd] at h23
            simp at h23
          · rw [if_neg hb, if_neg hd] at h23
            have h13 : ¬c1.toNat < c3.toNat := by omega
            have h31 : ¬c3.toNat < c1.toNat := by omega
            rw [if_neg h13, if_neg h31]
            exact ih t2 t3 h12 h23

/-- `charsLe` is antisymmetric. -/
theorem charsLe_antisymm : ∀ l1 l2 : List Char,
    charsLe l1 l2 = true → charsLe l2 l1 = true → l1 = l2 := by
  intro l1
  induction l1 with
  | nil =>
    intro l2 _ h21
    rcases l2 with _ | ⟨c2, t2⟩
    · rfl
    · simp [charsLe] at h21
  | cons c1 t1 ih =>
    intro l2 h12 h21
    rcases l2 with _ | ⟨c2, t2⟩
    · simp [charsLe] at h12
    simp only [charsLe] at h12 h21
    by_cases ha : c1.toNat < c2.toNat
    · have hc : ¬c2.toNat < c1.toNat := by omega
      rw [if_neg hc, if_pos ha] at h21
      simp at h21
    · by_cases hc : c2.toNat < c1.toNat
      · rw [if_neg ha, if_pos hc] at h12
        simp at h12
      · rw [if_neg ha, if_neg hc] at h12
        rw [if_neg hc, if_neg ha] at h21
        have hnat : c1.toNat = c2.toNat := by omega
        have hceq : c1 = c2 := Char.ext (UInt32.ext hnat)
        rw [hceq, ih t2 h12 h21]

/-- `keyLe` is antisymmetric on strings. -/
theorem keyLe_antisymm (a b : String) (h1 : keyLe a b = true) (h2 : keyLe b a = true) :
    a = b :=
  String.ext (charsLe_antisymm a.data b.data h1 h2)

/-- The stable sort of doc signatures by their composite key
(services/geminiService.ts lines 451-456); `Array.prototype.sort` is a
stable sort, modelled by insertion sort, whose output any stable sort by
the same comparator agrees with. -/
def sortDocSigs (l : List DocSignature) : List DocSignature :=
  List.insertionSort (fun a b => keyLe (sigKey a) (sigKey b) = true) l

/-- `buildSignature` (services/geminiService.ts lines 430-466); the
`new Date().toISOString()` timestamp is an explicit parameter. -/
def buildSignature (filename fileHash : String) (docs : List SigDocInput)
    (createdAt : String) : ParseSignature :=
  let docSigs := sortDocSigs (docs.map toDocSig)
  { schema := "regression.signature.v1"
    file_hash := fileHash
    filename := filename
    created_at := createdAt
    doc_count := docSigs.length
    docs := docSigs }

/-- Two sorted lists that are permutations of each other and whose keys are
pairwise distinct are equal. -/
theorem eq_of_perm_of_sorted_on_key {α : Type} (key : α → String) :
    ∀ (l1 l2 : List α), l1.Perm l2
      → l1.Pairwise (fun a b => keyLe (key a) (key b) = true)
      → l2.Pairwise (fun a b => keyLe (key a) (key b) = true)
      → (l1.map key).Nodup
      → l1 = l2 := by
  intro l1
  induction l1 with
  | nil =>
    intro l2 hp _ _ _
    exact hp.nil_eq
  | cons a t1 ih =>
    intro l2 hp hs1 hs2 hnd
    rcases l2 with _ | ⟨b, t2⟩
    · exact absurd hp.symm.nil_eq (by simp)
    have hab : a = b := by
      by_contra hne
      have ha2 : a ∈ b :: t2 := hp.subset (List.mem_cons_self a t1)
      have hb1 : b ∈ a :: t1 := hp.symm.subset (List.mem_cons_self b t2)
      have ha2' : a ∈ t2 := by
        rcases List.mem_cons.mp ha2 with h | h
        · exact absurd h hne
        · exact h
      have hb1' : b ∈ t1 := by
        rcases List.mem_cons.mp hb1 with h | h
        · exact absurd h.symm hne
        · exact h
      have h1 : keyLe (key a) (key b) = true := List.rel_of_pairwise_cons hs1 hb1'
      have h2 : keyLe (key b) (key a) = true := List.rel_of_pairwise_cons hs2 ha2'
      have hkey : key a = key b := keyLe_antisymm _ _ h1 h2
      have : key a ∉ t1.map key := (List.nodup_cons.mp (by simpa using hnd)).1
      exact this (hkey ▸ List.mem_map_of_mem key hb1')
    subst hab
    have ht : t1 = t2 :=
      ih t2 hp.cons_inv (List.Pairwise.of_cons hs1) (List.Pairwise.of_cons hs2)
        (List.nodup_cons.mp (by simpa using hnd)).2
    rw [ht]

/-- The key-comparator sort is sorted with respect to the key order. -/
theorem sortDocSigs_sorted (l : List DocSignature) :
    (sortDocSigs l).Pairwise (fun a b => keyLe (sigKey a) (sigKey b) = true) := by
  haveI : IsTotal DocSignature (fun a b => keyLe (sigKey a) (sigKey b) = true) :=
    ⟨fun a b => charsLe_total _ _⟩
  haveI : IsTrans DocSignature (fun a b => keyLe (sigKey a) (sigKey b) = true) :=
    ⟨fun a b c hab hbc => charsLe_trans _ _ _ hab hbc⟩
  exact List.sorted_insertionSort _ l

/-- C9 counterexample: two documents that differ only in their id share the
composite sort key, so the stable sort preserves their input order and the
two orderings produce different docs lists — buildSignature output is not
independent of input order for every document set. -/
theorem buildSignature_order_counterexample :
    (buildSignature "f.pdf" "hash0"
        [{ document_id := some "a", document_type := some "PURCHASE_ORDER",
           page_start := some 0, page_end := some 1, line_items := [(), ()] },
         { document_id := some "b", document_type := some "PURCHASE_ORDER",
           page_start := some 0, page_end := some 1, line_items := [(), ()] }] "t").docs
      ≠ (buildSignature "f.pdf" "hash0"
        [{ document_id := some "b", document_type := some "PURCHASE_ORDER",
           page_start := some 0, page_end := some 1, line_items := [(), ()] },
         { document_id := some "a", document_type := some "PURCHASE_ORDER",
           page_start := some 0, page_end := some 1, line_items := [(), ()] }] "t").docs := by
  decide

/-- C9 (amended): whenever the projected composite keys of the document set
are pairwise distinct, buildSignature produces the identical sorted docs
list for any two orderings of that set. -/
theorem buildSignature_order_independent (filename fileHash createdAt : String)
    (docs1 docs2 : List SigDocInput) (hperm : docs1.Perm docs2)
    (hkeys : ((docs1.map toDocSig).map sigKey).Nodup) :
    (buildSignature filename fileHash docs1 createdAt).docs
      = (buildSignature filename fileHash docs2 createdAt).docs := by
  show sortDocSigs (docs1.map toDocSig) = sortDocSigs (docs2.map toDocSig)
  have hperm2 : (docs1.map toDocSig).Perm (docs2.map toDocSig) := hperm.map toDocSig
  have hpermSort : (sortDocSigs (docs1.map toDocSig)).Perm (sortDocSigs (docs2.map toDocSig)) :=
    ((List.perm_insertionSort _ (docs1.map toDocSig)).trans hperm2).trans
      (List.perm_insertionSort _ (docs2.map toDocSig)).symm
  have hnd1 : ((sortDocSigs (docs1.map toDocSig)).map sigKey).Nodup :=
    ((List.perm_insertionSort _ (docs1.map toDocSig)).map sigKey).nodup_iff.mpr hkeys
  exact eq_of_perm_of_sorted_on_key sigKey _ _ hpermSort
    (sortDocSigs_sorted _) (sortDocSigs_sorted _) hnd1

/-- Two concrete documents with distinct keys, used by the C9 witness. -/
def sigDocA : SigDocInput :=
  { document_id := some "a", document_type := some "PURCHASE_ORDER",
    page_start := some 0, page_end := some 1, line_items := [()] }

/-- Second concrete document for the C9 witness (different line count). -/
def sigDocB : SigDocInput :=
  { document_id := some "b", document_type := some "PURCHASE_ORDER",
    page_start := some 2, page_end := some 3, line_items := [(), ()] }

/-- Witness for C9 (amended) at a two-document set with distinct keys. -/
theorem buildSignature_order_independent_witness :
    ([sigDocA, sigDocB].Perm [sigDocB, sigDocA]
        ∧ (([sigDocA, sigDocB].map toDocSig).map sigKey).Nodup)
      ∧ (buildSignature "f.pdf" "hash0" [sigDocA, sigDocB] "t").docs
          = (buildSignature "f.pdf" "hash0" [sigDocB, sigDocA] "t").docs :=
  ⟨⟨by decide, by decide⟩,
    buildSignature_order_independent "f.pdf" "hash0" "t" [sigDocA, sigDocB]
      [sigDocB, sigDocA] (by decide) (by decide)⟩

/-- The clamp stays inside [0,1]. -/
theorem clamp01_bounds (v : ℚ) : 0 ≤ clamp01 v ∧ clamp01 v ≤ 1 :=
  ⟨le_min zero_le_one (le_max_left 0 v), min_le_left 1 _⟩

/-- The unique bin index of a normalized value in [0,1]. -/
def targetBin (bins : ℕ) (v : ℚ) : ℕ :=
  min (Int.toNat ⌊v * (bins : ℚ)⌋) (bins - 1)

/-- For a positive bin count and v in [0,1], bin membership holds exactly
at the target bin index. -/
theorem binMember_iff (bins b : ℕ) (v : ℚ) (hb : 1 ≤ bins) (hbB : b < bins)
    (h0 : 0 ≤ v) (h1 : v ≤ 1) : binMember bins b v ↔ b = targetBin bins v := by
  have hB : (0 : ℚ) < (bins : ℚ) := by exact_mod_cast Nat.lt_of_lt_of_le Nat.zero_lt_one hb
  have hvB0 : (0 : ℚ) ≤ v * (bins : ℚ) := mul_nonneg h0 hB.le
  have hvBB : v * (bins : ℚ) ≤ (bins : ℚ) := by
    calc v * (bins : ℚ) ≤ 1 * (bins : ℚ) := mul_le_mul_of_nonneg_right h1 hB.le
      _ = (bins : ℚ) := one_mul _
  have hfl0 : 0 ≤ ⌊v * (bins : ℚ)⌋ := Int.le_floor.mpr (by exact_mod_cast hvB0)
  by_cases hlast : b = bins - 1
  · subst hlast
    unfold binMember targetBin
    rw [if_pos rfl]
    have hcast : ((bins - 1 : ℕ) : ℚ) = (bins : ℚ) - 1 := by
      push_cast [Nat.cast_sub hb]
      ring
    constructor
    · rintro ⟨hle, -⟩
      rw [div_le_iff₀ hB, hcast] at hle
      have hfl : ((bins - 1 : ℕ) : ℤ) ≤ ⌊v * (bins : ℚ)⌋ := by
        rw [Int.le_floor]
        push_cast [Nat.cast_sub hb]
        linarith
      have hge : bins - 1 ≤ (⌊v * (bins : ℚ)⌋).toNat := (Int.le_toNat hfl0).mpr hfl
      rw [min_eq_right hge]
    · intro ht
      have hge : bins - 1 ≤ (⌊v * (bins : ℚ)⌋).toNat := by
        have h2 := min_le_left (Int.toNat ⌊v * (bins : ℚ)⌋) (bins - 1)
        rw [← ht] at h2
        exact h2
      have hfl : ((bins - 1 : ℕ) : ℤ) ≤ ⌊v * (bins : ℚ)⌋ := (Int.le_toNat hfl0).mp hge
      have hle2 : ((bins - 1 : ℕ) : ℚ) ≤ v * (bins : ℚ) := by
        have := Int.le_floor.mp hfl
        exact_mod_cast this
      constructor
      · rw [div_le_iff₀ hB]
        exact hle2
      · rw [hcast, le_div_iff₀ hB]
        linarith
  · unfold binMember targetBin
    rw [if_neg hlast]
    constructor
    · rintro ⟨hle, hlt⟩
      rw [div_le_iff₀ hB] at hle
      rw [lt_div_iff₀ hB] at hlt
      have hfl : ⌊v * (bins : ℚ)⌋ = (b : ℤ) := by
        rw [Int.floor_eq_iff]
        constructor
        · exact_mod_cast hle
        · push_cast
          exact hlt
      rw [hfl]
      have htn : ((b : ℤ)).toNat = b := rfl
      rw [htn, min_eq_left (by omega)]
    · intro ht
      have hX : (⌊v * (bins : ℚ)⌋).toNat = b := by
        rcases min_choice ((⌊v * (bins : ℚ)⌋).toNat) (bins - 1) with hm | hm
        · rw [hm] at ht
          exact ht.symm
        · rw [hm] at ht
          exact absurd ht hlast
      have hfl : ⌊v * (bins : ℚ)⌋ = (b : ℤ) := by
        have h2 := Int.toNat_of_nonneg hfl0
        rw [← h2, hX]
      obtain ⟨hge, hlt⟩ := Int.floor_eq_iff.mp hfl
      constructor
      · rw [div_le_iff₀ hB]
        exact_mod_cast hge
      · rw [lt_div_iff₀ hB]
        push_cast at hlt
        exact hlt

/-- The filter of range n at a single index t < n. -/
theorem filter_eq_singleton_range : ∀ n t : ℕ, t < n →
    (List.range n).filter (fun b => decide (b = t)) = [t] := by
  intro n
  induction n with
  | zero => intro t ht; omega
  | succ n ih =>
    intro t ht
    rw [List.range_succ, List.filter_append]
    by_cases h : t < n
    · rw [ih t h]
      have h2 : List.filter (fun b => decide (b = t)) [n] = [] := by
        simp
        omega
      rw [h2, List.append_nil]
    · have ht2 : t = n := by omega
      subst ht2
      have h1 : (List.range t).filter (fun b => decide (b = t)) = [] := by
        rw [List.filter_eq_nil_iff]
        intro b hbmem
        rw [List.mem_range] at hbmem
        simp
        omega
      rw [h1]
      simp

/-- Every value of [0,1] lies in exactly one reliability bin. -/
theorem binMember_unique (bins : ℕ) (hb : 1 ≤ bins) (v : ℚ) (h0 : 0 ≤ v) (h1 : v ≤ 1) :
    ((List.range bins).filter (fun b => decide (binMember bins b v))).length = 1 := by
  have ht : targetBin bins v < bins := by
    have h2 : targetBin bins v ≤ bins - 1 := min_le_right _ _
    omega
  have hcongr : (List.range bins).filter (fun b => decide (binMember bins b v))
      = (List.range bins).filter (fun b => decide (b = targetBin bins v)) := by
    apply List.filter_congr
    intro b hbmem
    rw [List.mem_range] at hbmem
    simp only [decide_eq_decide]
    exact binMember_iff bins b v hb hbmem h0 h1
  rw [hcongr, filter_eq_singleton_range bins (targetBin bins v) ht]
  rfl

/-- Sums of pointwise sums of two maps split. -/
theorem sum_map_add_nat (f g : ℕ → ℕ) : ∀ l : List ℕ,
    (l.map (fun b => f b + g b)).sum = (l.map f).sum + (l.map g).sum := by
  intro l
  induction l with
  | nil => rfl
  | cons x t ih =>
    simp only [List.map_cons, List.sum_cons, ih]
    omega

/-- The sum of a 0/1 indicator map is the filtered length. -/
theorem sum_map_indicator (p : ℕ → Bool) : ∀ l : List ℕ,
    (l.map (fun b => if p b = true then (1 : ℕ) else 0)).sum = (l.filter p).length := by
  intro l
  induction l with
  | nil => rfl
  | cons x t ih =>
    simp only [List.map_cons, List.sum_cons, List.filter_cons]
    by_cases h : p x = true
    · rw [if_pos h, if_pos h, List.length_cons, ih]
      omega
    · rw [if_neg h, if_neg h, ih]
      omega

/-- When every element lies in exactly one of the n index classes, the
per-class filtered lengths sum to the list length. -/
theorem sum_filter_lengths {α : Type} (P : ℕ → α → Bool) (n : ℕ) :
    ∀ l : List α, (∀ x ∈ l, ((List.range n).filter (fun b => P b x)).length = 1) →
      ((List.range n).map (fun b => (l.filter (P b)).length)).sum = l.length := by
  intro l
  induction l with
  | nil => intro _; simp
  | cons x t ih =>
    intro h
    have hlen : ∀ b : ℕ, ((x :: t).filter (P b)).length
        = (if P b x = true then 1 else 0) + (t.filter (P b)).length := by
      intro b
      rw [List.filter_cons]
      by_cases hpb : P b x = true
      · rw [if_pos hpb, if_pos hpb, List.length_cons]
        omega
      · rw [if_neg hpb, if_neg hpb]
        omega
    calc ((List.range n).map (fun b => ((x :: t).filter (P b)).length)).sum
        = ((List.range n).map
            (fun b => (if P b x = true then 1 else 0) + (t.filter (P b)).length)).sum := by
          exact congrArg List.sum (List.map_congr_left (fun b _ => hlen b))
      _ = ((List.range n).map (fun b => if P b x = true then (1 : ℕ) else 0)).sum
          + ((List.range n).map (fun b => (t.filter (P b)).length)).sum :=
          sum_map_add_nat _ _ _
      _ = 1 + t.length := by
          rw [sum_map_indicator (fun b => P b x) (List.range n),
            h x (List.mem_cons_self x t),
            ih (fun z hz => h z (List.mem_cons_of_mem x hz))]
      _ = (x :: t).length := by
          rw [List.length_cons]
          omega

/-- An average of values in [0,1] lies in [0,1]. -/
theorem list_avg_bounds (l : List ℚ) (hne : l.length ≠ 0)
    (hbd : ∀ x ∈ l, 0 ≤ x ∧ x ≤ 1) :
    0 ≤ l.sum / (l.length : ℚ) ∧ l.sum / (l.length : ℚ) ≤ 1 := by
  have hlen : (0 : ℚ) < (l.length : ℚ) := by
    have : 0 < l.length := Nat.pos_of_ne_zero hne
    exact_mod_cast this
  constructor
  · exact div_nonneg (List.sum_nonneg (fun x hx => (hbd x hx).1)) hlen.le
  · rw [div_le_one hlen]
    have := List.sum_le_card_nsmul l 1 (fun x hx => (hbd x hx).2)
    rwa [nsmul_eq_mul, mul_one] at this

/-- The count stored in a reliability bin is the filtered pair count. -/
theorem reliabilityBin_count (pys : List (ℚ × ℚ)) (bins b : ℕ) :
    (reliabilityBin pys bins b).count
      = (pys.filter (fun x => decide (binMember bins b x.1))).length := by
  simp only [reliabilityBin]
  split
  · rename_i h
    exact h.symm
  · rfl

/-- Bin bounds stored in a reliability bin. -/
theorem reliabilityBin_minmax (pys : List (ℚ × ℚ)) (bins b : ℕ) :
    (reliabilityBin pys bins b).bin_min = (b : ℚ) / (bins : ℚ)
      ∧ (reliabilityBin pys bins b).bin_max = ((b : ℚ) + 1) / (bins : ℚ) := by
  simp only [reliabilityBin]
  split <;> exact ⟨rfl, rfl⟩

/-- The gap between a bin's average prediction and its empirical accuracy
is at most 1 when the zipped pairs stay inside [0,1]. -/
theorem reliabilityBin_gap_le_one (pys : List (ℚ × ℚ)) (bins b : ℕ)
    (hp : ∀ x ∈ pys, 0 ≤ x.1 ∧ x.1 ≤ 1) (hy : ∀ x ∈ pys, 0 ≤ x.2 ∧ x.2 ≤ 1) :
    |(reliabilityBin pys bins b).avg_pred - (reliabilityBin pys bins b).empirical_acc| ≤ 1 := by
  simp only [reliabilityBin]
  split
  · simp
  · rename_i h
    set inb := pys.filter (fun x => decide (binMember bins b x.1)) with hinb
    have hlen1 : (inb.map (fun x => x.1)).length ≠ 0 := by
      rw [List.length_map]
      exact h
    have hlen2 : (inb.map (fun x => x.2)).length ≠ 0 := by
      rw [List.length_map]
      exact h
    have havg := list_avg_bounds (inb.map (fun x => x.1)) hlen1 (by
      intro x hx
      rcases List.mem_map.mp hx with ⟨z, hz, rfl⟩
      exact hp z (List.mem_of_mem_filter hz))
    have hacc := list_avg_bounds (inb.map (fun x => x.2)) hlen2 (by
      intro x hx
      rcases List.mem_map.mp hx with ⟨z, hz, rfl⟩
      exact hy z (List.mem_of_mem_filter hz))
    rw [List.length_map] at havg hacc
    rw [abs_sub_le_iff]
    constructor
    · linarith [havg.2, hacc.1]
    · linarith [havg.1, hacc.2]

/-- The zipped (normalized prediction, outcome) pairs of one calibration
run, as built inside `computeCalibration`. -/
def calibPys (rows : List TruthTableRow) : List (ℚ × ℚ) :=
  (rows.map (fun r => normConf (detectScale rows) r.predicted_confidence)).zip
    (rows.map outcome)

/-- The reliability bins of the summary are the per-index bins over the
zipped pairs. -/
theorem calibCore_bins_eq (rows : List TruthTableRow) (bins : ℕ) :
    (calibCore rows bins).reliability_bins
      = (List.range bins).map (reliabilityBin (calibPys rows) bins) := rfl

/-- The ECE of the summary is the sum of the per-bin terms. -/
theorem calibCore_ece_eq (rows : List TruthTableRow) (bins : ℕ) :
    (calibCore rows bins).ece
      = ((List.range bins).map
          (fun b => eceTerm rows.length (reliabilityBin (calibPys rows) bins b))).sum := rfl

/-- Both components of every zipped pair lie in [0,1]. -/
theorem calibPys_bounds (rows : List TruthTableRow) :
    ∀ x ∈ calibPys rows, (0 ≤ x.1 ∧ x.1 ≤ 1) ∧ (0 ≤ x.2 ∧ x.2 ≤ 1) := by
  intro x hx
  obtain ⟨h1, h2⟩ := List.of_mem_zip hx
  constructor
  · rcases List.mem_map.mp h1 with ⟨r, -, heq⟩
    rw [← heq]
    exact clamp01_bounds _
  · rcases List.mem_map.mp h2 with ⟨r, -, heq⟩
    rw [← heq]
    unfold outcome
    split <;> norm_num

/-- The zip loses nothing: one pair per truth-table row. -/
theorem calibPys_length (rows : List TruthTableRow) :
    (calibPys rows).length = rows.length := by
  simp [calibPys]

set_option maxHeartbeats 1600000 in
/-- The per-index bin counts sum to the row count. -/
theorem counts_sum_core (rows : List TruthTableRow) (bins : ℕ) (hb : 1 ≤ bins) :
    ((List.range bins).map
        (fun b => (reliabilityBin (calibPys rows) bins b).count)).sum = rows.length := by
  have hcongr : (List.range bins).map (fun b => (reliabilityBin (calibPys rows) bins b).count)
      = (List.range bins).map (fun b =>
          ((calibPys rows).filter (fun x => decide (binMember bins b x.1))).length) :=
    List.map_congr_left (fun b _ => reliabilityBin_count _ _ _)
  have hsum := sum_filter_lengths (fun b x => decide (binMember bins b x.1)) bins (calibPys rows)
    (fun x hx => binMember_unique bins hb x.1 ((calibPys_bounds rows x hx).1).1
      ((calibPys_bounds rows x hx).1).2)
  rw [hcongr, hsum]
  exact calibPys_length rows

/-- ECE is nonnegative. -/
theorem calibCore_ece_nonneg (rows : List TruthTableRow) (bins : ℕ) :
    0 ≤ (calibCore rows bins).ece := by
  rw [calibCore_ece_eq]
  apply List.sum_nonneg
  intro x hx
  rcases List.mem_map.mp hx with ⟨b, _, rfl⟩
  unfold eceTerm
  split
  · exact le_refl 0
  · exact mul_nonneg (div_nonneg (Nat.cast_nonneg _) (Nat.cast_nonneg _)) (abs_nonneg _)

/-- ECE is at most 1 on a non-empty table with a positive bin count. -/
theorem calibCore_ece_le_one (rows : List TruthTableRow) (bins : ℕ)
    (hb : 1 ≤ bins) (hne : rows ≠ []) : (calibCore rows bins).ece ≤ 1 := by
  rw [calibCore_ece_eq]
  have hnn : (0 : ℚ) < (rows.length : ℚ) := by
    have : 0 < rows.length := List.length_pos.mpr hne
    exact_mod_cast this
  have hpoint : ∀ b ∈ List.range bins,
      eceTerm rows.length (reliabilityBin (calibPys rows) bins b)
        ≤ ((reliabilityBin (calibPys rows) bins b).count : ℚ) / (rows.length : ℚ) := by
    intro b _
    unfold eceTerm
    split
    · exact div_nonneg (Nat.cast_nonneg _) (Nat.cast_nonneg _)
    · have habs := reliabilityBin_gap_le_one (calibPys rows) bins b
        (fun x hx => (calibPys_bounds rows x hx).1)
        (fun x hx => (calibPys_bounds rows x hx).2)
      have hdiv : (0 : ℚ)
          ≤ ((reliabilityBin (calibPys rows) bins b).count : ℚ) / (rows.length : ℚ) :=
        div_nonneg (Nat.cast_nonneg _) (Nat.cast_nonneg _)
      calc ((reliabilityBin (calibPys rows) bins b).count : ℚ) / (rows.length : ℚ)
            * |(reliabilityBin (calibPys rows) bins b).avg_pred
                - (reliabilityBin (calibPys rows) bins b).empirical_acc|
          ≤ ((reliabilityBin (calibPys rows) bins b).count : ℚ) / (rows.length : ℚ) * 1 :=
            mul_le_mul_of_nonneg_left habs hdiv
        _ = ((reliabilityBin (calibPys rows) bins b).count : ℚ) / (rows.length : ℚ) :=
            mul_one _
  apply le_trans (List.sum_le_sum hpoint)
  have hmul : (List.range bins).map
        (fun b => ((reliabilityBin (calibPys rows) bins b).count : ℚ) / (rows.length : ℚ))
      = (List.range bins).map
        (fun b => ((reliabilityBin (calibPys rows) bins b).count : ℚ) * ((rows.length : ℚ))⁻¹) :=
    List.map_congr_left (fun b _ => div_eq_mul_inv _ _)
  rw [hmul, List.sum_map_mul_right]
  have hcast : ((List.range bins).map
        (fun b => ((reliabilityBin (calibPys rows) bins b).count : ℚ))).sum
      = (((List.range bins).map
          (fun b => (reliabilityBin (calibPys rows) bins b).count)).sum : ℕ) := by
    rw [Nat.cast_list_sum, List.map_map]
    rfl
  rw [hcast, counts_sum_core rows bins hb, mul_inv_cancel₀ hnn.ne']

/-- C7 counterexample: with bin count 0 the reliability-bin list is empty,
so the bin counts sum to 0 while n_rows is 1 — the claim fails for the bin
count 0 even on a one-row table. -/
theorem reliability_bins_zero_counterexample :
    (computeCalibration [ttRowA] 0).toOption.map
        (fun c => ((c.reliability_bins.map (·.count)).sum, c.n_rows)) = some (0, 1)
      ∧ (0 : ℕ) ≠ 1 :=
  ⟨rfl, by decide⟩

/-- C7 (amended): for every non-empty truth table and every positive bin
count, computeCalibration succeeds and its reliability bins partition [0,1]
into `bins` equal-width intervals [b/bins,(b+1)/bins) (the last closed at
1): every value of [0,1] lies in exactly one bin, the bin counts sum
exactly to n_rows, and 0 ≤ ECE ≤ 1. -/
theorem reliability_partition_spec (rows : List TruthTableRow) (bins : ℕ)
    (hb : 1 ≤ bins) (hne : rows ≠ []) :
    ∃ c, computeCalibration rows bins = Except.ok c
      ∧ c.reliability_bins.length = bins
      ∧ (∀ b, b < bins → ∃ bin, c.reliability_bins[b]? = some bin
          ∧ bin.bin_min = (b : ℚ) / (bins : ℚ)
          ∧ bin.bin_max = ((b : ℚ) + 1) / (bins : ℚ))
      ∧ (∀ v : ℚ, 0 ≤ v → v ≤ 1 →
          ((List.range bins).filter (fun b => decide (binMember bins b v))).length = 1)
      ∧ (c.reliability_bins.map (·.count)).sum = c.n_rows
      ∧ 0 ≤ c.ece ∧ c.ece ≤ 1 := by
  refine ⟨calibCore rows bins, by simp [computeCalibration, hne], ?_, ?_, ?_, ?_, ?_, ?_⟩
  · rw [calibCore_bins_eq]
    simp
  · intro b hbB
    refine ⟨reliabilityBin (calibPys rows) bins b, ?_,
      (reliabilityBin_minmax _ _ _).1, (reliabilityBin_minmax _ _ _).2⟩
    rw [calibCore_bins_eq, List.getElem?_map, List.getElem?_range hbB]
    rfl
  · intro v h0 h1
    exact binMember_unique bins hb v h0 h1
  · rw [calibCore_bins_eq, List.map_map]
    have : ((List.range bins).map
        (fun b => (reliabilityBin (calibPys rows) bins b).count)).sum = rows.length :=
      counts_sum_core rows bins hb
    exact this
  · exact calibCore_ece_nonneg rows bins
  · exact calibCore_ece_le_one rows bins hb hne

/-- Witness for C7 (amended) at a one-row table with a single bin. -/
theorem reliability_partition_spec_witness :
    (1 ≤ 1) ∧ ([ttRowA] ≠ ([] : List TruthTableRow))
      ∧ (∃ c, computeCalibration [ttRowA] 1 = Except.ok c
          ∧ c.reliability_bins.length = 1
          ∧ (∀ b : ℕ, b < 1 → ∃ bin, c.reliability_bins[b]? = some bin
              ∧ bin.bin_min = (b : ℚ) / ((1 : ℕ) : ℚ)
              ∧ bin.bin_max = ((b : ℚ) + 1) / ((1 : ℕ) : ℚ))
          ∧ (∀ v : ℚ, 0 ≤ v → v ≤ 1 →
              ((List.range 1).filter (fun b => decide (binMember 1 b v))).length = 1)
          ∧ (c.reliability_bins.map (·.count)).sum = c.n_rows
          ∧ 0 ≤ c.ece ∧ c.ece ≤ 1) :=
  ⟨le_refl 1, by simp, reliability_partition_spec [ttRowA] 1 (le_refl 1) (by simp)⟩

end OrderParser
